import Mathlib

/-!
# PhoneCam signalling broker (`server.js`)

A shallow embedding of the session broker of `server.js`: the session store
`sessions`, `generateCode`, `cleanupSocket`, `safeSend`, the `message` handler of
a connection and the expiry callback that `cleanupSocket` hands to `setTimeout`.

* A WebSocket object is a `Conn` (its identity); `ws._code` lives in the state.
* `sessions` is a JavaScript object used as a map: reads go through
  `Object.prototype`, own keys are enumerated in property order.
* `Math.random()` is an input: the handler receives the draws it will see, each
  a double, and line 30 is evaluated in the arithmetic of doubles.
* A frame that is sent is the text `JSON.stringify(obj)` that `ws.send` gets.
* `ws.readyState === ws.OPEN` is an input: the predicate `isOpen`.
* `JSON.parse(raw)` is an input: `none` when it throws, `some v` otherwise.
-/

/-! ## JavaScript values -/

mutual
/-- A JavaScript value as `JSON.parse` builds it, plus `undefined` (the value of a
missing property). A Number is carried as its `Number::toString` rendering: the
broker turns a number into a property key or hands it back to `JSON.stringify`,
and both only use that rendering. -/
inductive JVal where
  | undefined
  | null
  | bool (b : Bool)
  | num (rendering : String)
  | str (s : String)
  | arr (items : JList)
  | obj (fields : JFields)
deriving DecidableEq, Repr
/-- The elements of an array. -/
inductive JList where
  | nil
  | cons (head : JVal) (tail : JList)
deriving DecidableEq, Repr
/-- The own properties of a plain object, one entry per key, in the order in which
`Object.keys` and `JSON.stringify` visit them. -/
inductive JFields where
  | nil
  | cons (key : String) (value : JVal) (rest : JFields)
deriving DecidableEq, Repr
end

/-- The own property `name` of an object, when it has one. -/
def JFields.find? : JFields → String → Option JVal
  | .nil, _ => none
  | .cons k v rest, name => if k = name then some v else rest.find? name

mutual
/-- The conversion `ToString(v)`, as `ToPropertyKey` applies it in `sessions[v]`; `none` when it
throws a TypeError. A plain object goes through `Object.prototype.toString`
unless an own property `toString` shadows it: that property is no function, and
`valueOf` never yields a primitive, so the conversion throws. -/
def JVal.toKey : JVal → Option String
  | .undefined => some "undefined"
  | .null => some "null"
  | .bool b => some (if b then "true" else "false")
  | .num rendering => some rendering
  | .str s => some s
  | .arr items => items.join
  | .obj fields =>
    match fields.find? "toString" with
    | some _ => none
    | none => some "[object Object]"
/-- The method `Array.prototype.join` with the separator `","`. -/
def JList.join : JList → Option String
  | .nil => some ""
  | .cons x .nil => x.toElem
  | .cons x rest =>
    match x.toElem, rest.join with
    | some a, some b => some (a ++ "," ++ b)
    | _, _ => none
/-- The text `join` uses for one element: empty for `undefined` and `null`,
otherwise `ToString` of the element. -/
def JVal.toElem : JVal → Option String
  | .undefined => some ""
  | .null => some ""
  | .bool b => some (if b then "true" else "false")
  | .num rendering => some rendering
  | .str s => some s
  | .arr items => items.join
  | .obj fields =>
    match fields.find? "toString" with
    | some _ => none
    | none => some "[object Object]"
end

/-- The read `msg.type`: `none` when the read throws (`msg` is `null` or `undefined`),
otherwise the own property `type`, or `undefined`: no prototype of a parsed value
has a property of that name. -/
def msgType : JVal → Option JVal
  | .undefined => none
  | .null => none
  | .obj fields => some ((fields.find? "type").getD .undefined)
  | _ => some .undefined

/-- The binding `const { code } = msg` for a message whose `type` matched a case label. -/
def msgCode : JVal → JVal
  | .obj fields => (fields.find? "code").getD .undefined
  | _ => .undefined

/-! ## Connections, sessions and the store -/

/-- The identity of a WebSocket object. -/
abbrev Conn := Nat

/-- An entry `{ laptop: ws | null, mobile: ws | null }` of the store. -/
structure Session where
  laptop : Option Conn
  mobile : Option Conn
deriving DecidableEq, Repr

/-- The two slot names. -/
inductive Role where
  | laptop
  | mobile
deriving DecidableEq, Repr

/-- The slot name as the string the code uses. -/
def Role.name : Role → String
  | .laptop => "laptop"
  | .mobile => "mobile"

/-- The read `session[role]`. -/
def Session.slot (s : Session) : Role → Option Conn
  | .laptop => s.laptop
  | .mobile => s.mobile

/-- The assignment `session[role] = null`. -/
def Session.clear (s : Session) : Role → Session
  | .laptop => { s with laptop := none }
  | .mobile => { s with mobile := none }

/-- The peer slot, `role === 'laptop' ? session.mobile : session.laptop`. -/
def Session.peerOf (s : Session) : Role → Option Conn
  | .laptop => s.mobile
  | .mobile => s.laptop

/-- The test `!session.laptop && !session.mobile`. -/
def Session.bothEmpty (s : Session) : Bool :=
  s.laptop.isNone && s.mobile.isNone

/-- The object `sessions`: its own properties, in the order `Object.entries`
lists them. -/
abbrev Store := List (String × Session)

/-- The own property keys of the store. -/
def Store.keys (store : Store) : List String :=
  store.map Prod.fst

/-- The own property `key` of the store. -/
def Store.own : Store → String → Option Session
  | [], _ => none
  | (k, v) :: rest, key => if k = key then some v else Store.own rest key

/-- The property names that every plain object inherits from `Object.prototype`. -/
def objectPrototypeKeys : List String :=
  ["constructor", "__defineGetter__", "__defineSetter__", "hasOwnProperty",
   "__lookupGetter__", "__lookupSetter__", "isPrototypeOf", "propertyIsEnumerable",
   "toString", "valueOf", "__proto__", "toLocaleString"]

/-- What the read `sessions[key]` yields. -/
inductive Lookup where
  | undefined
  | session (s : Session)
  | inherited
deriving DecidableEq, Repr

/-- The read `sessions[key]`: the own entry, else the member of `Object.prototype`
of that name (a function, or the prototype itself for `__proto__`), else
`undefined`. -/
def Store.read (store : Store) (key : String) : Lookup :=
  match Store.own store key with
  | some s => .session s
  | none => if key ∈ objectPrototypeKeys then .inherited else .undefined

/-- Truthiness of a value read from the store. -/
def Lookup.truthy : Lookup → Bool
  | .undefined => false
  | .session _ => true
  | .inherited => true

/-- The value of `String(n)` read back as a number, for the characters of a key. -/
def digitsValue (cs : List Char) : Nat :=
  cs.foldl (fun acc c => 10 * acc + (c.toNat - 48)) 0

/-- The array index a property key denotes, if it is one: a canonical decimal
numeral below `2^32 - 1`. Such keys are enumerated first, in ascending order. -/
def arrayIndex? (key : String) : Option Nat :=
  let cs := key.data
  if cs ≠ [] ∧ cs.all Char.isDigit = true ∧ (cs.head? ≠ some '0' ∨ cs.length = 1)
      ∧ digitsValue cs < 4294967295 then
    some (digitsValue cs)
  else
    none

/-- Adds a property that the object does not have yet, at its place in the
enumeration order: among the array indices by value, otherwise at the end. -/
def Store.insertNew (key : String) (v : Session) : Store → Store
  | [] => [(key, v)]
  | (k, s) :: rest =>
    match arrayIndex? key, arrayIndex? k with
    | some n, some m =>
      if n < m then (key, v) :: (k, s) :: rest else (k, s) :: Store.insertNew key v rest
    | some _, none => (key, v) :: (k, s) :: rest
    | none, _ => (k, s) :: Store.insertNew key v rest

/-- Replaces the value of an own property, which keeps its place. -/
def Store.update (key : String) (v : Session) : Store → Store
  | [] => []
  | (k, s) :: rest =>
    if k = key then (k, v) :: rest else (k, s) :: Store.update key v rest

/-- The assignment `sessions[key] = v`. -/
def Store.set (store : Store) (key : String) (v : Session) : Store :=
  match Store.own store key with
  | some _ => Store.update key v store
  | none => Store.insertNew key v store

/-- The statement `delete sessions[key]`. -/
def Store.erase : Store → String → Store
  | [], _ => []
  | (k, s) :: rest, key =>
    if k = key then Store.erase rest key else (k, s) :: Store.erase rest key

/-! ## Broker state and outputs -/

/-! ### The text of a frame: `JSON.stringify` -/

/-- The lower-case hexadecimal digit of a number below 16. -/
def hexDigit (n : Nat) : Char :=
  if n < 10 then Char.ofNat (48 + n) else Char.ofNat (87 + n)

/-- The characters `JSON.stringify` writes for one character of a string: the
double quote (34) and the backslash (92) get a backslash in front, the control
characters 8, 9, 10, 12, 13 their short escape, the other characters below 32 the
escape `u00` with two hexadecimal digits, every other character itself. -/
def quoteChar (c : Char) : List Char :=
  if c.toNat = 34 then [Char.ofNat 92, Char.ofNat 34]
  else if c.toNat = 92 then [Char.ofNat 92, Char.ofNat 92]
  else if c.toNat = 8 then [Char.ofNat 92, 'b']
  else if c.toNat = 9 then [Char.ofNat 92, 't']
  else if c.toNat = 10 then [Char.ofNat 92, 'n']
  else if c.toNat = 12 then [Char.ofNat 92, 'f']
  else if c.toNat = 13 then [Char.ofNat 92, 'r']
  else if c.toNat < 32 then
    [Char.ofNat 92, 'u', '0', '0', hexDigit (c.toNat / 16), hexDigit (c.toNat % 16)]
  else [c]

/-- The escaped characters of a string, in order. -/
def quoteChars : List Char → List Char
  | [] => []
  | c :: rest => quoteChar c ++ quoteChars rest

/-- The JSON text of a string: its escaped characters between double quotes. A
string is a sequence of Unicode characters; a text with a lone surrogate, which
`JSON.stringify` would also escape, is no value of `String`. -/
def quoteJSON (s : String) : String :=
  String.mk (Char.ofNat 34 :: (quoteChars s.data ++ [Char.ofNat 34]))

/-- The renderings of the Numbers that are not finite; `JSON.parse` yields
`Infinity` for a numeral too large for a double, such as `1e400`. -/
def isNonFinite (rendering : String) : Bool :=
  rendering = "Infinity" || rendering = "-Infinity" || rendering = "NaN"

/-- The texts of the members, with a comma between two of them. -/
def joinComma : List String → String
  | [] => ""
  | [a] => a
  | a :: rest => a ++ "," ++ joinComma rest

mutual
/-- The text `JSON.stringify(v)`: a Number that is not finite is written `null`, a
string is escaped, an array and an object list their members. For `undefined`,
where `JSON.stringify` returns no text, the empty text stands in: the handler
passes object literals and parsed messages only. -/
def JVal.stringify : JVal → String
  | .undefined => ""
  | .null => "null"
  | .bool b => if b then "true" else "false"
  | .num rendering => if isNonFinite rendering then "null" else rendering
  | .str s => quoteJSON s
  | .arr items => "[" ++ joinComma items.members ++ "]"
  | .obj fields => "\x7b" ++ joinComma fields.members ++ "\x7d"
/-- The texts of the elements of an array; `undefined` is written `null`. -/
def JList.members : JList → List String
  | .nil => []
  | .cons .undefined rest => "null" :: rest.members
  | .cons x rest => x.stringify :: rest.members
/-- The texts of the properties of an object, in property order; a property whose
value is `undefined` is left out. -/
def JFields.members : JFields → List String
  | .nil => []
  | .cons _ .undefined rest => rest.members
  | .cons key value rest => (quoteJSON key ++ ":" ++ value.stringify) :: rest.members
end

/-- A frame handed to `ws.send`: the receiving connection and the text sent, the
`JSON.stringify` of the object. -/
abbrev Send := Conn × String

/-- The state of the broker: the store, the `_code` property of each connection
that has one, and the codes of the expiry callbacks that `setTimeout` holds. -/
structure State where
  sessions : Store
  codeOf : List (Conn × JVal)
  timers : List String
deriving DecidableEq, Repr

/-- The state at start-up: `sessions = {}`, no connection, no timer. -/
def State.empty : State :=
  { sessions := [], codeOf := [], timers := [] }

/-- The read `ws._code`. -/
def State.getCode (st : State) (ws : Conn) : JVal :=
  match st.codeOf.find? (fun e => e.1 == ws) with
  | some e => e.2
  | none => .undefined

/-- How a handler ends: it returns (`ok`, with the state it leaves and the frames
it sent), an exception leaves it (`throws`), or the loop of `generateCode` has not
left on the given draws (`diverges`). Every statement of the handler that can
throw, the reads `msg.type`, `sessions[code]` and `sessions[ws._code]`, stands
before the first write and the first send of its case, so a run that throws has
written and sent nothing. -/
inductive Outcome (α : Type) where
  | ok (result : α)
  | throws
  | diverges
deriving DecidableEq, Repr

/-- The function `safeSend(ws, obj)`: when `ws` is truthy and its `readyState` is
`OPEN`, it sends the text `JSON.stringify(obj)`. -/
def safeSend (isOpen : Conn → Bool) (ws : Option Conn) (obj : JVal) : List Send :=
  match ws with
  | some c => if isOpen c then [(c, obj.stringify)] else []
  | none => []

/-- The object `{ type: 'session-created', code }`. -/
def sessionCreated (code : String) : JVal :=
  .obj (.cons "type" (.str "session-created") (.cons "code" (.str code) .nil))

/-- The object `{ type: 'session-joined', code }`. -/
def sessionJoined (code : JVal) : JVal :=
  .obj (.cons "type" (.str "session-joined") (.cons "code" code .nil))

/-- The object `{ type: 'peer-joined' }`. -/
def peerJoined : JVal :=
  .obj (.cons "type" (.str "peer-joined") .nil)

/-- The object `{ type: 'peer-disconnected', role }`. -/
def peerDisconnected (role : Role) : JVal :=
  .obj (.cons "type" (.str "peer-disconnected") (.cons "role" (.str role.name) .nil))

/-- The object `{ type: 'error', message }`. -/
def errorMessage (message : String) : JVal :=
  .obj (.cons "type" (.str "error") (.cons "message" (.str message) .nil))

/-- The object `{ type: 'pong' }`. -/
def pong : JVal :=
  .obj (.cons "type" (.str "pong") .nil)

/-- The text of the first join error. -/
def notFoundText : String := "Session not found. Check the code and try again."

/-- The text of the second join error. -/
def occupiedText : String := "Session already has a mobile device connected."

/-- The text of the third join error. -/
def laptopGoneText : String := "Laptop disconnected. Ask them to create a new session."

/-! ## Code generation -/

/-- One value of `Math.random()`: the double `num / den`, where `den` is a power
of two. The doubles that line 30 computes from it are kept as whole numbers of
units of `1 / den`. -/
structure Draw where
  num : Nat
  den : Nat
deriving DecidableEq, Repr

/-- The number of bits by which `x` is longer than the 53 bits of the significand
of a double: 0 when `x < 2 ^ 53`, and one more for each halving it takes to get
below `2 ^ 53`. The first argument bounds the number of halvings. -/
def excessBits : Nat → Nat → Nat
  | 0, _ => 0
  | fuel + 1, x => if x < 2 ^ 53 then 0 else excessBits fuel (x / 2) + 1

/-- The double nearest to the exact result `x` of an operation, as IEEE 754
binary64 rounds it: `x` keeps its 53 leading bits, the bits below them are rounded
to nearest, and a tie goes to the even significand. -/
def roundToDouble (x : Nat) : Nat :=
  let q := 2 ^ excessBits x x
  let f := x / q
  let rem := x % q
  if 2 * rem < q then q * f
  else if q < 2 * rem then q * (f + 1)
  else if f % 2 = 0 then q * f else q * (f + 1)

/-- The number `Math.floor(100000 + r * 900000)` of line 30 for the draw `r`, in
the arithmetic of doubles: the product `r * 900000` is rounded, the sum of 100000
and that double is rounded, and the floor of the sum is exact. -/
def Draw.floor (d : Draw) : Nat :=
  roundToDouble (100000 * d.den + roundToDouble (d.num * 900000)) / d.den

/-- The code `String(Math.floor(100000 + r * 900000))` for the draw `r`: the
decimal rendering of the whole number `Draw.floor`. -/
def Draw.code (d : Draw) : String :=
  toString d.floor

/-- The function `generateCode()` against the draws `Math.random()` will return: the loop draws,
and draws again while `sessions[code]` is truthy. `none` when the draws run out
before the loop leaves. -/
def generateCode (sessions : Store) : List Draw → Option String
  | [] => none
  | d :: rest =>
    if (Store.read sessions d.code).truthy then generateCode sessions rest else some d.code

/-! ## Disconnect -/

/-- The slot of `session` that `ws` holds, as line 37 decides it. -/
def roleOf (ws : Conn) (session : Session) : Option Role :=
  if session.laptop = some ws then some .laptop
  else if session.mobile = some ws then some .mobile
  else none

/-- The loop of `cleanupSocket` over `Object.entries(sessions)`: the entries after
the loop, the frames sent and the codes handed to `setTimeout`. -/
def cleanupScan (isOpen : Conn → Bool) (ws : Conn) : Store → Store × List Send × List String
  | [] => ([], [], [])
  | (code, session) :: rest =>
    match roleOf ws session with
    | none =>
      let r := cleanupScan isOpen ws rest
      ((code, session) :: r.1, r.2.1, r.2.2)
    | some role =>
      let session1 := session.clear role
      let peer := session1.peerOf role
      ((code, session1) :: rest,
       safeSend isOpen peer (peerDisconnected role),
       if session1.bothEmpty then [code] else [])

/-- The function `cleanupSocket(ws)`, the handler of `close` and of `error`. -/
def cleanupSocket (isOpen : Conn → Bool) (st : State) (ws : Conn) : State × List Send :=
  let r := cleanupScan isOpen ws st.sessions
  ({ st with sessions := r.1, timers := st.timers ++ r.2.2 }, r.2.1)

/-- The callback of line 49, run on the store as it is when the timer fires. -/
def expiryCallback (store : Store) (code : String) : Store :=
  match Store.read store code with
  | .session s => if s.bothEmpty then Store.erase store code else store
  | .undefined => Store.erase store code
  | .inherited => Store.erase store code

/-- The timer at position `i` fires: it leaves the pending timers and its callback
runs. Nothing happens when there is no such timer. -/
def fireTimer (st : State) (i : Nat) : State :=
  match st.timers[i]? with
  | some code =>
    { st with sessions := expiryCallback st.sessions code, timers := st.timers.eraseIdx i }
  | none => st

/-! ## The message handler -/

/-- The case `create-session`. -/
def createSession (isOpen : Conn → Bool) (draws : List Draw) (st : State) (ws : Conn) :
    Outcome (State × List Send) :=
  match generateCode st.sessions draws with
  | none => .diverges
  | some code =>
    .ok ({ st with
            sessions := Store.set st.sessions code { laptop := some ws, mobile := none },
            codeOf := (ws, .str code) :: st.codeOf },
         safeSend isOpen (some ws) (sessionCreated code))

/-- The case `join-session`. -/
def joinSession (isOpen : Conn → Bool) (st : State) (ws : Conn) (msg : JVal) :
    Outcome (State × List Send) :=
  let code := msgCode msg
  match code.toKey with
  | none => .throws
  | some key =>
    match Store.read st.sessions key with
    | .undefined => .ok (st, safeSend isOpen (some ws) (errorMessage notFoundText))
    | .inherited => .ok (st, safeSend isOpen (some ws) (errorMessage laptopGoneText))
    | .session session =>
      if session.mobile.isSome then
        .ok (st, safeSend isOpen (some ws) (errorMessage occupiedText))
      else if session.laptop.isNone then
        .ok (st, safeSend isOpen (some ws) (errorMessage laptopGoneText))
      else
        .ok ({ st with
                sessions := Store.update key { session with mobile := some ws } st.sessions,
                codeOf := (ws, code) :: st.codeOf },
             safeSend isOpen (some ws) (sessionJoined code)
               ++ safeSend isOpen session.laptop peerJoined)

/-- The cases `offer`, `answer` and `ice-candidate`. -/
def relay (isOpen : Conn → Bool) (st : State) (ws : Conn) (msg : JVal) :
    Outcome (State × List Send) :=
  match (st.getCode ws).toKey with
  | none => .throws
  | some key =>
    match Store.read st.sessions key with
    | .undefined => .ok (st, [])
    | .inherited => .ok (st, [])
    | .session session =>
      let peer := if session.laptop = some ws then session.mobile else session.laptop
      .ok (st, safeSend isOpen peer msg)

/-- The handler of `message`: `parsed` is what `JSON.parse(raw)` gave, `none` when
it threw. -/
def onMessage (isOpen : Conn → Bool) (draws : List Draw) (st : State) (ws : Conn)
    (parsed : Option JVal) : Outcome (State × List Send) :=
  match parsed with
  | none => .ok (st, [])
  | some msg =>
    match msgType msg with
    | none => .throws
    | some t =>
      if t = .str "create-session" then createSession isOpen draws st ws
      else if t = .str "join-session" then joinSession isOpen st ws msg
      else if t = .str "offer" ∨ t = .str "answer" ∨ t = .str "ice-candidate" then
        relay isOpen st ws msg
      else if t = .str "ping" then .ok (st, safeSend isOpen (some ws) pong)
      else .ok (st, [])

/-! ## Gateway events and reachable states -/

/-- An event the gateway delivers to the broker. -/
inductive Event where
  | message (ws : Conn) (parsed : Option JVal) (draws : List Draw)
  | close (ws : Conn)
  | error (ws : Conn)
  | expire (i : Nat)
deriving DecidableEq, Repr

/-- One event, handled to completion. -/
def step (isOpen : Conn → Bool) (st : State) : Event → Outcome (State × List Send)
  | .message ws parsed draws => onMessage isOpen draws st ws parsed
  | .close ws => .ok (cleanupSocket isOpen st ws)
  | .error ws => .ok (cleanupSocket isOpen st ws)
  | .expire i => .ok (fireTimer st i, [])

/-- The states the broker can be in: those a sequence of events, each handled to
completion, leads to from start-up. -/
inductive Reachable : State → Prop where
  | init : Reachable State.empty
  | next (isOpen : Conn → Bool) (ev : Event) (st st1 : State) (out : List Send) :
      Reachable st → step isOpen st ev = .ok (st1, out) → Reachable st1

/-- The connection `ws` holds the slot `role` of the session `code`. -/
def Occupies (store : Store) (ws : Conn) (code : String) (role : Role) : Prop :=
  ∃ s, Store.own store code = some s ∧ s.slot role = some ws

/-- No connection holds two slots of the store. -/
def AtMostOneSlot (store : Store) : Prop :=
  ∀ ws code1 role1 code2 role2,
    Occupies store ws code1 role1 → Occupies store ws code2 role2 →
      code1 = code2 ∧ role1 = role2

/-- The three kinds of message the broker relays. -/
def isRelayType (t : JVal) : Prop :=
  t = .str "offer" ∨ t = .str "answer" ∨ t = .str "ice-candidate"

/-- A store as the broker builds it: one entry per key, and every key is the
decimal rendering of a number, as line 30 makes them. -/
def Store.WF (store : Store) : Prop :=
  (Store.keys store).Nodup ∧ ∀ k ∈ Store.keys store, ∃ n : Nat, k = toString n

/-! ## Sample inputs -/

/-- Every connection has `readyState === OPEN`. -/
def allOpen : Conn → Bool := fun _ => true

/-- Connection 0 created session 100000 and connection 1 joined it. -/
def pairedState : State :=
  { sessions := [("100000", { laptop := some 0, mobile := some 1 })],
    codeOf := [(1, .str "100000"), (0, .str "100000")],
    timers := [] }

/-- Connection 0 created session 100000 and nobody joined. -/
def waitingState : State :=
  { sessions := [("100000", { laptop := some 0, mobile := none })],
    codeOf := [(0, .str "100000")],
    timers := [] }

/-- The frame `{"type":"create-session"}`, parsed. -/
def createMessage : JVal :=
  .obj (.cons "type" (.str "create-session") .nil)

/-- The frame `{"type":"join-session","code":...}`, parsed. -/
def joinMessage (code : JVal) : JVal :=
  .obj (.cons "type" (.str "join-session") (.cons "code" code .nil))

/-- The frame `{"type":"offer","sdp":"v=0"}`, parsed. -/
def sampleOffer : JVal :=
  .obj (.cons "type" (.str "offer") (.cons "sdp" (.str "v=0") .nil))

/-- The frame `{"type":"answer","sdp":"v=0"}`, parsed. -/
def sampleAnswer : JVal :=
  .obj (.cons "type" (.str "answer") (.cons "sdp" (.str "v=0") .nil))

/-- Connection 0 sent `create-session` twice and got 100000, then 550000. -/
def doubleCreateState : State :=
  { sessions := [("100000", { laptop := some 0, mobile := none }),
                 ("550000", { laptop := some 0, mobile := none })],
    codeOf := [(0, .str "550000"), (0, .str "100000")],
    timers := [] }

/-- Connection 0 created session 100000 and then joined it itself. -/
def selfJoinedState : State :=
  { sessions := [("100000", { laptop := some 0, mobile := some 0 })],
    codeOf := [(0, .str "100000"), (0, .str "100000")],
    timers := [] }

/-- The connection `ws` holds no slot of the store. -/
def HoldsNoSlot (store : Store) (ws : Conn) : Prop :=
  ∀ code role, ¬ Occupies store ws code role

/-- The event comes from a client that asks for a slot only while it holds none:
a `create-session` or `join-session` message is sent by a connection without a
slot. The handlers do not check this. -/
def Event.asksOnce (st : State) : Event → Prop
  | .message ws (some msg) _ =>
    (msgType msg = some (.str "create-session") ∨ msgType msg = some (.str "join-session")) →
      HoldsNoSlot st.sessions ws
  | _ => True

/-- The six values of `msg.type` that have a case label in the handler. -/
def isKnownType (t : JVal) : Prop :=
  t = .str "create-session" ∨ t = .str "join-session" ∨ isRelayType t ∨ t = .str "ping"

/-- The frame `{"type":"ping"}`, parsed. -/
def pingMessage : JVal :=
  .obj (.cons "type" (.str "ping") .nil)

/-- The paired session 100000 after its mobile, connection 1, has disconnected:
the mobile slot is empty and `_code` of connection 1 is still set. -/
def mobileLeftState : State :=
  { sessions := [("100000", { laptop := some 0, mobile := none })],
    codeOf := [(1, .str "100000"), (0, .str "100000")],
    timers := [] }

/-- The paired session 100000 after its laptop, connection 0, has disconnected. -/
def laptopLeftState : State :=
  { sessions := [("100000", { laptop := none, mobile := some 1 })],
    codeOf := [(1, .str "100000"), (0, .str "100000")],
    timers := [] }

/-- Session 100000 after its only member, the laptop 0, has disconnected: both
slots are empty and the expiry of 100000 is pending. -/
def abandonedState : State :=
  { sessions := [("100000", { laptop := none, mobile := none })],
    codeOf := [(0, .str "100000")],
    timers := ["100000"] }

/-- The draw is a value of `Math.random()`: a double `r` with `0 ≤ r < 1`, that is
`num / 2 ^ k` with `k ≤ 1074`, `num < 2 ^ k`, and a numerator that fits the 53 bits
of a significand. -/
def Draw.valid (d : Draw) : Prop :=
  (∃ k < 1075, d.den = 2 ^ k) ∧ d.num < d.den ∧ d.num % 2 ^ excessBits d.num d.num = 0

/-- The draws an event hands to `generateCode` are values of `Math.random()`. -/
def Event.validDraws : Event → Prop
  | .message _ _ draws => ∀ d, d ∈ draws → d.valid
  | _ => True

/-- A string of exactly six decimal digits whose value lies between 100000 and
999999. -/
def IsCode (k : String) : Prop :=
  k.length = 6 ∧ (∀ c ∈ k.data, c.isDigit = true) ∧
    100000 ≤ digitsValue k.data ∧ digitsValue k.data ≤ 999999

/-- The frame `{"type":"offer","x":1e400}`, parsed: `JSON.parse` reads the numeral
`1e400`, too large for a double, as `Infinity`. -/
def overflowOffer : JVal :=
  .obj (.cons "type" (.str "offer") (.cons "x" (.num "Infinity") .nil))

/-! ## Facts about decimal renderings -/

theorem digitChar_isDigit (m : Nat) (h : m < 10) : (Nat.digitChar m).isDigit = true := by
  interval_cases m <;> decide

theorem toDigitsCore_isDigit (fuel : Nat) : ∀ (n : Nat) (ds : List Char),
    (∀ c ∈ ds, c.isDigit = true) →
      ∀ c ∈ Nat.toDigitsCore 10 fuel n ds, c.isDigit = true := by
  induction fuel with
  | zero =>
    intro n ds h c hc
    simpa [Nat.toDigitsCore] using h c hc
  | succ f ih =>
    intro n ds h c hc
    have hd : (Nat.digitChar (n % 10)).isDigit = true :=
      digitChar_isDigit _ (Nat.mod_lt _ (by decide))
    have hds : ∀ c ∈ Nat.digitChar (n % 10) :: ds, c.isDigit = true := by
      intro c hc
      rcases List.mem_cons.1 hc with rfl | hc
      · exact hd
      · exact h c hc
    simp only [Nat.toDigitsCore] at hc
    split at hc
    · exact hds c hc
    · exact ih _ _ hds c hc

theorem toString_nat_isDigit (n : Nat) : ∀ c ∈ (toString n).data, c.isDigit = true := by
  intro c hc
  have hrepr : toString n = (Nat.toDigits 10 n).asString := rfl
  rw [hrepr] at hc
  simp only [List.asString] at hc
  exact toDigitsCore_isDigit _ _ _ (by simp) c hc

theorem toString_nat_ne_undefined (n : Nat) : toString n ≠ "undefined" := by
  intro h
  have hu := toString_nat_isDigit n 'u' (by rw [h]; decide)
  exact absurd hu (by decide)

theorem toString_nat_not_inherited (n : Nat) : toString n ∉ objectPrototypeKeys := by
  intro h
  have hall := toString_nat_isDigit n
  simp only [objectPrototypeKeys, List.mem_cons, List.mem_singleton, List.not_mem_nil,
    or_false] at h
  rcases h with h | h | h | h | h | h | h | h | h | h | h | h <;>
    · rw [h] at hall
      revert hall
      decide

/-! ## Facts about the store -/

theorem Store.own_eq_none_iff (store : Store) (key : String) :
    Store.own store key = none ↔ key ∉ Store.keys store := by
  induction store with
  | nil => simp [Store.own, Store.keys]
  | cons e rest ih =>
    obtain ⟨k, v⟩ := e
    by_cases h : k = key
    · simp [Store.own, Store.keys, h]
    · have hne : ¬ key = k := fun h1 => h h1.symm
      simpa [Store.own, Store.keys, h, hne] using ih

theorem Store.own_some_mem (store : Store) (key : String) (s : Session)
    (h : Store.own store key = some s) : (key, s) ∈ store := by
  induction store with
  | nil => simp [Store.own] at h
  | cons e rest ih =>
    obtain ⟨k, v⟩ := e
    by_cases hk : k = key
    · simp [Store.own, hk] at h
      simp [hk, h]
    · simp [Store.own, hk] at h
      exact List.mem_cons_of_mem _ (ih h)

theorem Store.mem_own_of_nodup (store : Store) (key : String) (s : Session)
    (hnd : (Store.keys store).Nodup) (h : (key, s) ∈ store) :
    Store.own store key = some s := by
  induction store with
  | nil => simp at h
  | cons e rest ih =>
    obtain ⟨k, v⟩ := e
    simp only [Store.keys, List.map_cons, List.nodup_cons] at hnd
    rcases List.mem_cons.1 h with h | h
    · cases h
      simp [Store.own]
    · have hmem : key ∈ rest.map Prod.fst := List.mem_map.2 ⟨(key, s), h, rfl⟩
      have hk : k ≠ key := fun hk => hnd.1 (hk ▸ hmem)
      simp only [Store.own, hk, if_false]
      exact ih hnd.2 h

theorem Store.keys_update (key : String) (v : Session) (store : Store) :
    Store.keys (Store.update key v store) = Store.keys store := by
  induction store with
  | nil => rfl
  | cons e rest ih =>
    obtain ⟨k, s⟩ := e
    by_cases h : k = key
    · simp [Store.update, Store.keys, h]
    · simp only [Store.keys] at ih
      simp [Store.update, Store.keys, h, ih]

theorem Store.own_update (key : String) (v : Session) (store : Store) (k : String) :
    Store.own (Store.update key v store) k =
      if k = key then (Store.own store key).map (fun _ => v) else Store.own store k := by
  induction store with
  | nil => simp [Store.update, Store.own]
  | cons e rest ih =>
    obtain ⟨k0, s⟩ := e
    by_cases h : k0 = key
    · subst h
      by_cases hk : k = k0
      · subst hk
        simp [Store.update, Store.own]
      · have hk1 : ¬ k0 = k := fun h1 => hk h1.symm
        simp [Store.update, Store.own, hk, hk1]
    · by_cases hk : k = key
      · subst hk
        simp [Store.update, Store.own, h, ih]
      · by_cases hk0 : k0 = k
        · simp [Store.update, Store.own, h, hk, hk0]
        · simp [Store.update, Store.own, h, hk, hk0, ih]

theorem Store.insertNew_perm (key : String) (v : Session) (store : Store) :
    (Store.insertNew key v store).Perm ((key, v) :: store) := by
  induction store with
  | nil => simp [Store.insertNew]
  | cons e rest ih =>
    obtain ⟨k, s⟩ := e
    have hswap : ((k, s) :: Store.insertNew key v rest).Perm ((key, v) :: (k, s) :: rest) :=
      ((List.Perm.cons (k, s) ih).trans (List.Perm.swap _ _ _))
    simp only [Store.insertNew]
    split
    · split
      · exact List.Perm.refl _
      · exact hswap
    · exact List.Perm.refl _
    · exact hswap

theorem Store.own_insertNew (key : String) (v : Session) (store : Store) (k : String)
    (hnew : Store.own store key = none) :
    Store.own (Store.insertNew key v store) k =
      if k = key then some v else Store.own store k := by
  induction store with
  | nil =>
    by_cases hk : k = key
    · simp [Store.insertNew, Store.own, hk]
    · have hk1 : ¬ key = k := fun h1 => hk h1.symm
      simp [Store.insertNew, Store.own, hk, hk1]
  | cons e rest ih =>
    obtain ⟨k0, s⟩ := e
    have hk0 : k0 ≠ key := by
      intro h
      simp [Store.own, h] at hnew
    have hrest : Store.own rest key = none := by
      simpa [Store.own, hk0] using hnew
    have hfront : Store.own ((key, v) :: (k0, s) :: rest) k =
        if k = key then some v else Store.own ((k0, s) :: rest) k := by
      by_cases hk : k = key
      · simp [Store.own, hk]
      · have hk1 : ¬ key = k := fun h1 => hk h1.symm
        simp [Store.own, hk, hk1]
    have hback : Store.own ((k0, s) :: Store.insertNew key v rest) k =
        if k = key then some v else Store.own ((k0, s) :: rest) k := by
      by_cases hk : k = key
      · subst hk
        simp [Store.own, hk0, ih hrest]
      · by_cases hkk : k0 = k
        · simp [Store.own, hk, hkk]
        · simp [Store.own, hk, hkk, ih hrest]
    simp only [Store.insertNew]
    split
    · split
      · exact hfront
      · exact hback
    · exact hfront
    · exact hback

theorem Store.own_set (store : Store) (key : String) (v : Session) (k : String) :
    Store.own (Store.set store key v) k = if k = key then some v else Store.own store k := by
  unfold Store.set
  cases h : Store.own store key with
  | none => simpa using Store.own_insertNew key v store k h
  | some s =>
    simp only
    rw [Store.own_update, h]
    simp

theorem Store.keys_erase_sublist (store : Store) (key : String) :
    (Store.keys (Store.erase store key)).Sublist (Store.keys store) := by
  induction store with
  | nil => simp [Store.erase, Store.keys]
  | cons e rest ih =>
    obtain ⟨k, s⟩ := e
    simp only [Store.keys] at ih
    by_cases h : k = key
    · simpa [Store.keys, Store.erase, h] using List.Sublist.cons _ ih
    · simpa [Store.keys, Store.erase, h] using ih

theorem Store.own_erase (store : Store) (key : String) (k : String) :
    Store.own (Store.erase store key) k = if k = key then none else Store.own store k := by
  induction store with
  | nil => simp [Store.erase, Store.own]
  | cons e rest ih =>
    obtain ⟨k0, s⟩ := e
    by_cases h0 : k0 = key
    · subst h0
      by_cases hk : k = k0
      · subst hk
        simp [Store.erase, ih]
      · have hk1 : ¬ k0 = k := fun h1 => hk h1.symm
        simp [Store.erase, Store.own, ih, hk, hk1]
    · by_cases hk : k = key
      · subst hk
        simp [Store.erase, Store.own, ih, h0]
      · by_cases hkk : k0 = k
        · subst hkk
          simp [Store.erase, Store.own, h0]
        · simp [Store.erase, Store.own, ih, h0, hk, hkk]

/-! ## Facts about `cleanupSocket` -/

theorem roleOf_eq_none_iff (ws : Conn) (s : Session) :
    roleOf ws s = none ↔ s.laptop ≠ some ws ∧ s.mobile ≠ some ws := by
  unfold roleOf
  by_cases h1 : s.laptop = some ws
  · simp [h1]
  · by_cases h2 : s.mobile = some ws
    · simp [h1, h2]
    · simp [h1, h2]

theorem roleOf_some_slot (ws : Conn) (s : Session) (role : Role)
    (h : roleOf ws s = some role) : s.slot role = some ws := by
  unfold roleOf at h
  by_cases h1 : s.laptop = some ws
  · simp [h1] at h
    subst h
    exact h1
  · by_cases h2 : s.mobile = some ws
    · simp [h1, h2] at h
      subst h
      exact h2
    · simp [h1, h2] at h

theorem slot_some_roleOf (ws : Conn) (s : Session) (role : Role)
    (h : s.slot role = some ws) : roleOf ws s ≠ none := by
  intro hnone
  have hboth := (roleOf_eq_none_iff ws s).1 hnone
  cases role with
  | laptop => exact hboth.1 h
  | mobile => exact hboth.2 h

theorem cleanupScan_spec (isOpen : Conn → Bool) (ws : Conn) (store : Store)
    (hnd : (Store.keys store).Nodup) :
    ((∀ k s, Store.own store k = some s → roleOf ws s = none) ∧
        cleanupScan isOpen ws store = (store, [], [])) ∨
    (∃ code s role, Store.own store code = some s ∧ roleOf ws s = some role ∧
        cleanupScan isOpen ws store =
          (Store.update code (s.clear role) store,
           safeSend isOpen ((s.clear role).peerOf role) (peerDisconnected role),
           if (s.clear role).bothEmpty then [code] else [])) := by
  induction store with
  | nil =>
    left
    exact ⟨by intro k s h; simp [Store.own] at h, rfl⟩
  | cons e rest ih =>
    obtain ⟨k0, v⟩ := e
    have hnd0 : k0 ∉ Store.keys rest ∧ (Store.keys rest).Nodup := by
      simpa [Store.keys] using hnd
    cases hr : roleOf ws v with
    | some role =>
      right
      refine ⟨k0, v, role, by simp [Store.own], hr, ?_⟩
      simp [cleanupScan, hr, Store.update]
    | none =>
      rcases ih hnd0.2 with ⟨hall, heq⟩ | ⟨code, s, role, hown, hrole, heq⟩
      · left
        constructor
        · intro k s h
          by_cases hk : k0 = k
          · simp [Store.own, hk] at h
            subst h
            exact hr
          · simp [Store.own, hk] at h
            exact hall k s h
        · simp [cleanupScan, hr, heq]
      · right
        have hmem : code ∈ Store.keys rest := by
          by_contra hcon
          rw [(Store.own_eq_none_iff rest code).2 hcon] at hown
          cases hown
        have hk : k0 ≠ code := fun h => hnd0.1 (h ▸ hmem)
        refine ⟨code, s, role, by simp [Store.own, hk, hown], hrole, ?_⟩
        simp [cleanupScan, hr, heq, Store.update, hk]

theorem cleanupScan_keys (isOpen : Conn → Bool) (ws : Conn) (store : Store) :
    Store.keys (cleanupScan isOpen ws store).1 = Store.keys store := by
  induction store with
  | nil => rfl
  | cons e rest ih =>
    obtain ⟨k0, v⟩ := e
    cases hr : roleOf ws v with
    | some role => simp [cleanupScan, hr, Store.keys]
    | none =>
      simp only [Store.keys] at ih
      simp [cleanupScan, hr, Store.keys, ih]

theorem Session.clear_slot (s : Session) (role : Role) : (s.clear role).slot role = none := by
  cases role <;> rfl

theorem Session.clear_peerOf (s : Session) (role : Role) :
    (s.clear role).peerOf role = s.peerOf role := by
  cases role <;> rfl

theorem safeSend_open (isOpen : Conn → Bool) (c : Conn) (obj : JVal) (h : isOpen c = true) :
    safeSend isOpen (some c) obj = [(c, obj.stringify)] := by
  simp [safeSend, h]

/-! ## The texts of the frames the broker builds -/

theorem pong_text : pong.stringify = "\x7b\"type\":\"pong\"\x7d" := rfl

theorem peerJoined_text : peerJoined.stringify = "\x7b\"type\":\"peer-joined\"\x7d" := rfl

theorem peerDisconnected_laptop_text :
    (peerDisconnected .laptop).stringify = "\x7b\"type\":\"peer-disconnected\",\"role\":\"laptop\"\x7d" := rfl

theorem peerDisconnected_mobile_text :
    (peerDisconnected .mobile).stringify = "\x7b\"type\":\"peer-disconnected\",\"role\":\"mobile\"\x7d" := rfl

theorem errorMessage_text (message : String) :
    (errorMessage message).stringify
      = "\x7b\"type\":\"error\",\"message\":" ++ quoteJSON message ++ "\x7d" := rfl

theorem sessionCreated_text (code : String) :
    (sessionCreated code).stringify
      = "\x7b\"type\":\"session-created\",\"code\":" ++ quoteJSON code ++ "\x7d" := rfl

theorem quoteChar_digit (c : Char) (h : c.isDigit = true) : quoteChar c = [c] := by
  have hlo : 48 ≤ c.toNat := by
    have h1 := h
    simp only [Char.isDigit, Bool.and_eq_true, decide_eq_true_eq] at h1
    have := h1.1
    exact this
  unfold quoteChar
  have e1 : c.toNat ≠ 34 := by omega
  have e3 : c.toNat ≠ 8 := by omega
  have e4 : c.toNat ≠ 9 := by omega
  have e5 : c.toNat ≠ 10 := by omega
  have e6 : c.toNat ≠ 12 := by omega
  have e7 : c.toNat ≠ 13 := by omega
  have e8 : ¬ c.toNat < 32 := by omega
  have hhi : c.toNat ≤ 57 := by
    have h1 := h
    simp only [Char.isDigit, Bool.and_eq_true, decide_eq_true_eq] at h1
    exact h1.2
  have e2 : c.toNat ≠ 92 := by omega
  simp [e1, e2, e3, e4, e5, e6, e7, e8]

theorem quoteChars_digits (cs : List Char) (h : ∀ c ∈ cs, c.isDigit = true) :
    quoteChars cs = cs := by
  induction cs with
  | nil => rfl
  | cons c rest ih =>
    simp only [quoteChars]
    rw [quoteChar_digit c (h c (List.mem_cons_self _ _)),
      ih (fun x hx => h x (List.mem_cons_of_mem _ hx))]
    rfl

theorem text_quote_assoc (a k b : String) :
    a ++ ("\"" ++ k ++ "\"") ++ b = (a ++ "\"") ++ k ++ ("\"" ++ b) := by
  simp [String.append_assoc]

theorem quoteJSON_digits (k : String) (h : ∀ c ∈ k.data, c.isDigit = true) :
    quoteJSON k = "\"" ++ k ++ "\"" := by
  unfold quoteJSON
  rw [quoteChars_digits k.data h]
  rfl

theorem Store.WF_single (n : Nat) (s : Session) : Store.WF [(toString n, s)] := by
  refine ⟨by simp [Store.keys], ?_⟩
  intro k hk
  simp only [Store.keys, List.map_cons, List.map_nil, List.mem_singleton] at hk
  exact ⟨n, hk⟩

theorem cleanupSocket_eq (isOpen : Conn → Bool) (st : State) (ws : Conn) :
    cleanupSocket isOpen st ws =
      ({ st with sessions := (cleanupScan isOpen ws st.sessions).1,
                 timers := st.timers ++ (cleanupScan isOpen ws st.sessions).2.2 },
       (cleanupScan isOpen ws st.sessions).2.1) := rfl

/-! ## C7: disconnect of a connection that holds one slot, or none -/

/-- C7: in a well-formed store where `conn` holds the slot `r` of session `c` and
no other slot, `cleanupSocket(conn)` empties that slot, keeps the other slot of
`c`, every other session, the keys and the back-references, and sends exactly one
frame to an open occupant `p` of the other slot: the text of `peer-disconnected`
whose `role` is `laptop` when the laptop slot was vacated and `mobile` when the
mobile slot was; it sends no frame when the other slot is empty. When `conn` holds
no slot, the state is unchanged and nothing is sent. -/
theorem cleanupSocket_single_slot (isOpen : Conn → Bool) (st : State) (conn : Conn)
    (hwf : Store.WF st.sessions) :
    (∀ c r s, Store.own st.sessions c = some s → s.slot r = some conn →
      (∀ c1 r1, Occupies st.sessions conn c1 r1 → c1 = c ∧ r1 = r) →
        Store.own (cleanupSocket isOpen st conn).1.sessions c = some (s.clear r) ∧
        (s.clear r).slot r = none ∧
        (s.clear r).peerOf r = s.peerOf r ∧
        (∀ k, k ≠ c →
          Store.own (cleanupSocket isOpen st conn).1.sessions k = Store.own st.sessions k) ∧
        Store.keys (cleanupSocket isOpen st conn).1.sessions = Store.keys st.sessions ∧
        (cleanupSocket isOpen st conn).1.codeOf = st.codeOf ∧
        (∀ p, s.peerOf r = some p → isOpen p = true →
          (r = .laptop →
            (cleanupSocket isOpen st conn).2
              = [(p, "\x7b\"type\":\"peer-disconnected\",\"role\":\"laptop\"\x7d")]) ∧
          (r = .mobile →
            (cleanupSocket isOpen st conn).2
              = [(p, "\x7b\"type\":\"peer-disconnected\",\"role\":\"mobile\"\x7d")])) ∧
        (s.peerOf r = none → (cleanupSocket isOpen st conn).2 = [])) ∧
    ((∀ c r, ¬ Occupies st.sessions conn c r) →
      cleanupSocket isOpen st conn = (st, [])) := by
  constructor
  · intro c r s hown hslot huniq
    rcases cleanupScan_spec isOpen conn st.sessions hwf.1 with
      ⟨hall, _⟩ | ⟨code, s1, role, hown1, hrole, heq⟩
    · exact absurd (hall c s hown) (slot_some_roleOf conn s r hslot)
    · obtain ⟨hc, hr⟩ := huniq code role ⟨s1, hown1, roleOf_some_slot conn s1 role hrole⟩
      subst hc
      subst hr
      have hs : s1 = s := by
        rw [hown] at hown1
        exact (Option.some.inj hown1).symm
      subst hs
      rw [cleanupSocket_eq, heq]
      refine ⟨?_, Session.clear_slot s1 role, Session.clear_peerOf s1 role, ?_, ?_, rfl, ?_, ?_⟩
      · simp [Store.own_update, hown]
      · intro k hk
        simp [Store.own_update, hk]
      · exact Store.keys_update _ _ _
      · intro p hp hopen
        have hout : safeSend isOpen ((s1.clear role).peerOf role) (peerDisconnected role)
            = [(p, (peerDisconnected role).stringify)] := by
          rw [Session.clear_peerOf, hp]
          exact safeSend_open isOpen p _ hopen
        constructor
        · intro hr
          rw [hr] at hout
          rw [hr]
          simpa [peerDisconnected_laptop_text] using hout
        · intro hr
          rw [hr] at hout
          rw [hr]
          simpa [peerDisconnected_mobile_text] using hout
      · intro hp
        simp [Session.clear_peerOf, hp, safeSend]
  · intro hnone
    rcases cleanupScan_spec isOpen conn st.sessions hwf.1 with
      ⟨_, heq⟩ | ⟨code, s1, role, hown1, hrole, _⟩
    · rw [cleanupSocket_eq, heq]
      simp
    · exact absurd ⟨s1, hown1, roleOf_some_slot conn s1 role hrole⟩ (hnone code role)

theorem pairedState_own (c : String) (s : Session)
    (h : Store.own pairedState.sessions c = some s) :
    c = "100000" ∧ s = { laptop := some 0, mobile := some 1 } := by
  by_cases hc : "100000" = c
  · exact ⟨hc.symm, by simpa [pairedState, Store.own, hc] using h.symm⟩
  · simp [pairedState, Store.own, hc] at h

/-- Witness for C7: in the paired session 100000 the laptop 0 disconnects and the
mobile 1 gets `peer-disconnected` with role `laptop`; when the mobile 1
disconnects instead, the laptop 0 gets role `mobile`; connection 7, which holds no
slot, disconnects without effect. -/
theorem cleanupSocket_single_slot_witness :
    Store.WF pairedState.sessions ∧
    Store.own (cleanupSocket allOpen pairedState 0).1.sessions "100000"
      = some { laptop := none, mobile := some 1 } ∧
    (cleanupSocket allOpen pairedState 0).2
      = [(1, "\x7b\"type\":\"peer-disconnected\",\"role\":\"laptop\"\x7d")] ∧
    (cleanupSocket allOpen pairedState 1).2
      = [(0, "\x7b\"type\":\"peer-disconnected\",\"role\":\"mobile\"\x7d")] ∧
    cleanupSocket allOpen pairedState 7 = (pairedState, []) := by
  have hwf : Store.WF pairedState.sessions := Store.WF_single 100000 _
  have hlap := (cleanupSocket_single_slot allOpen pairedState 0 hwf).1 "100000" .laptop
    { laptop := some 0, mobile := some 1 } (by decide) (by decide) (by
      rintro c1 r1 ⟨s, hs, hslot⟩
      obtain ⟨hc, hv⟩ := pairedState_own c1 s hs
      subst hv
      cases r1 with
      | laptop => exact ⟨hc, rfl⟩
      | mobile => simp [Session.slot] at hslot)
  have hmob := (cleanupSocket_single_slot allOpen pairedState 1 hwf).1 "100000" .mobile
    { laptop := some 0, mobile := some 1 } (by decide) (by decide) (by
      rintro c1 r1 ⟨s, hs, hslot⟩
      obtain ⟨hc, hv⟩ := pairedState_own c1 s hs
      subst hv
      cases r1 with
      | laptop => simp [Session.slot] at hslot
      | mobile => exact ⟨hc, rfl⟩)
  refine ⟨hwf, hlap.1, (hlap.2.2.2.2.2.2.1 1 (by decide) (by decide)).1 rfl,
    (hmob.2.2.2.2.2.2.1 0 (by decide) (by decide)).2 rfl,
    (cleanupSocket_single_slot allOpen pairedState 7 hwf).2 ?_⟩
  rintro c r ⟨s, hs, hslot⟩
  obtain ⟨_, hv⟩ := pairedState_own c s hs
  subst hv
  cases r <;> simp [Session.slot] at hslot

/-! ## C10: deferred destruction -/

theorem Session.bothEmpty_iff (s : Session) :
    s.bothEmpty = true ↔ s.laptop = none ∧ s.mobile = none := by
  simp [Session.bothEmpty]

theorem expiryCallback_own_other (store : Store) (code k : String) (hk : k ≠ code) :
    Store.own (expiryCallback store code) k = Store.own store k := by
  unfold expiryCallback
  split
  · split
    · simp [Store.own_erase, hk]
    · rfl
  · simp [Store.own_erase, hk]
  · simp [Store.own_erase, hk]

/-- C10: in a well-formed store, `cleanupSocket(conn)` appends to the pending
expiries exactly the codes `c` of which `conn` held a slot and whose two slots are
empty after the call, and it removes no entry. The expiry callback for `c`, run on
the store as it is then, leaves no entry for `c` when `c` is absent or has both
slots empty, leaves the store as it is when a slot of `c` is occupied, never
touches another session, and the expiry step sends nothing. -/
theorem deferred_destruction (isOpen : Conn → Bool) (st : State) (conn : Conn) (c : String)
    (hwf : Store.WF st.sessions) :
    (∃ added, (cleanupSocket isOpen st conn).1.timers = st.timers ++ added ∧
      (c ∈ added ↔
        ((∃ r, Occupies st.sessions conn c r) ∧
          ∃ s1, Store.own (cleanupSocket isOpen st conn).1.sessions c = some s1 ∧
            s1.laptop = none ∧ s1.mobile = none))) ∧
    Store.keys (cleanupSocket isOpen st conn).1.sessions = Store.keys st.sessions ∧
    ((Store.own st.sessions c = none ∨
        ∃ s, Store.own st.sessions c = some s ∧ s.laptop = none ∧ s.mobile = none) →
      Store.own (expiryCallback st.sessions c) c = none) ∧
    ((∃ s, Store.own st.sessions c = some s ∧ (s.laptop ≠ none ∨ s.mobile ≠ none)) →
      expiryCallback st.sessions c = st.sessions) ∧
    (∀ k, k ≠ c → Store.own (expiryCallback st.sessions c) k = Store.own st.sessions k) ∧
    (∀ i, st.timers[i]? = some c →
      step isOpen st (.expire i) =
        .ok ({ st with sessions := expiryCallback st.sessions c,
                       timers := st.timers.eraseIdx i }, [])) := by
  refine ⟨?_, cleanupScan_keys isOpen conn st.sessions, ?_, ?_, ?_, ?_⟩
  · rw [cleanupSocket_eq]
    refine ⟨(cleanupScan isOpen conn st.sessions).2.2, rfl, ?_⟩
    rcases cleanupScan_spec isOpen conn st.sessions hwf.1 with
      ⟨hall, heq⟩ | ⟨code, s, role, hown, hrole, heq⟩
    · rw [heq]
      constructor
      · intro h
        simp at h
      · rintro ⟨⟨r, s, hs, hslot⟩, _⟩
        exact absurd (hall c s hs) (slot_some_roleOf conn s r hslot)
    · rw [heq]
      constructor
      · intro h
        by_cases hb : (s.clear role).bothEmpty = true
        · simp only [hb, if_true, List.mem_singleton] at h
          subst h
          refine ⟨⟨role, s, hown, roleOf_some_slot conn s role hrole⟩, s.clear role, ?_,
            (Session.bothEmpty_iff _).1 hb⟩
          simp [Store.own_update, hown]
        · simp [hb] at h
      · rintro ⟨⟨r, s2, hs2, hslot⟩, s1, hs1, hl, hm⟩
        by_cases hc : c = code
        · subst hc
          simp only [Store.own_update, if_true, hown, Option.map_some'] at hs1
          have hs : s.clear role = s1 := Option.some.inj hs1
          have hb : (s.clear role).bothEmpty = true := by
            rw [hs]
            exact (Session.bothEmpty_iff s1).2 ⟨hl, hm⟩
          simp [hb]
        · simp only [Store.own_update, hc, if_false] at hs1
          rw [hs2] at hs1
          have hs : s2 = s1 := Option.some.inj hs1
          subst hs
          cases r with
          | laptop => simp [Session.slot, hl] at hslot
          | mobile => simp [Session.slot, hm] at hslot
  · intro h
    unfold expiryCallback Store.read
    rcases h with h | ⟨s, hs, hl, hm⟩
    · rw [h]
      by_cases hp : c ∈ objectPrototypeKeys
      · simp [hp, Store.own_erase]
      · simp [hp, Store.own_erase]
    · rw [hs]
      simp [(Session.bothEmpty_iff s).2 ⟨hl, hm⟩, Store.own_erase]
  · rintro ⟨s, hs, hocc⟩
    unfold expiryCallback Store.read
    rw [hs]
    have hb : ¬ s.bothEmpty = true := by
      intro hb
      have := (Session.bothEmpty_iff s).1 hb
      rcases hocc with h | h
      · exact h this.1
      · exact h this.2
    simp [hb]
  · intro k hk
    exact expiryCallback_own_other st.sessions c k hk
  · intro i hi
    simp [step, fireTimer, hi]

/-- Witness for C10: connection 0, alone in session 100000, disconnects and the
expiry of 100000 is scheduled; fired while the laptop still holds its slot, the
expiry leaves the store as it is. -/
theorem deferred_destruction_witness :
    Store.WF waitingState.sessions ∧
    "100000" ∈ (cleanupSocket allOpen waitingState 0).1.timers ∧
    Store.keys (cleanupSocket allOpen waitingState 0).1.sessions = ["100000"] ∧
    expiryCallback waitingState.sessions "100000" = waitingState.sessions := by
  have hwf : Store.WF waitingState.sessions := Store.WF_single 100000 _
  have h := deferred_destruction allOpen waitingState 0 "100000" hwf
  obtain ⟨⟨added, hadd, hiff⟩, hkeys, _, hkeep, _, _⟩ := h
  refine ⟨hwf, ?_, hkeys, hkeep ⟨_, rfl, Or.inl (by decide)⟩⟩
  rw [hadd]
  apply List.mem_append_right
  apply hiff.2
  refine ⟨⟨.laptop, _, rfl, rfl⟩, { laptop := none, mobile := none }, by decide, rfl, rfl⟩

/-! ## Facts about the message handler -/

theorem getCode_cons_self (st : State) (sessions : Store) (timers : List String)
    (c : Conn) (v : JVal) :
    State.getCode { sessions := sessions, codeOf := (c, v) :: st.codeOf, timers := timers } c
      = v := by
  simp [State.getCode]

theorem getCode_cons_other (st : State) (sessions : Store) (timers : List String)
    (c d : Conn) (v : JVal) (h : d ≠ c) :
    State.getCode { sessions := sessions, codeOf := (c, v) :: st.codeOf, timers := timers } d
      = st.getCode d := by
  have hcd : ¬ c = d := fun h1 => h h1.symm
  simp [State.getCode, List.find?_cons, hcd]

theorem onMessage_create (isOpen : Conn → Bool) (draws : List Draw) (st : State) (ws : Conn)
    (msg : JVal) (h : msgType msg = some (.str "create-session")) :
    onMessage isOpen draws st ws (some msg) = createSession isOpen draws st ws := by
  simp [onMessage, h]

theorem onMessage_join (isOpen : Conn → Bool) (draws : List Draw) (st : State) (ws : Conn)
    (msg : JVal) (h : msgType msg = some (.str "join-session")) :
    onMessage isOpen draws st ws (some msg) = joinSession isOpen st ws msg := by
  simp [onMessage, h]

theorem onMessage_relay (isOpen : Conn → Bool) (draws : List Draw) (st : State) (ws : Conn)
    (msg t : JVal) (h : msgType msg = some t) (ht : isRelayType t) :
    onMessage isOpen draws st ws (some msg) = relay isOpen st ws msg := by
  rcases ht with ht | ht | ht <;> subst ht <;> simp [onMessage, h]

theorem read_of_own_some (store : Store) (key : String) (s : Session)
    (h : Store.own store key = some s) : Store.read store key = .session s := by
  simp [Store.read, h]

theorem read_not_truthy (store : Store) (key : String)
    (h : (Store.read store key).truthy = false) : Store.own store key = none := by
  unfold Store.read at h
  cases hown : Store.own store key with
  | none => rfl
  | some s => simp [hown, Lookup.truthy] at h

theorem generateCode_some (store : Store) (draws : List Draw) (k : String)
    (h : generateCode store draws = some k) :
    (∃ d, d ∈ draws ∧ k = d.code) ∧ (Store.read store k).truthy = false := by
  induction draws with
  | nil => simp [generateCode] at h
  | cons d rest ih =>
    by_cases ht : (Store.read store d.code).truthy = true
    · simp only [generateCode, ht, if_true] at h
      obtain ⟨⟨d1, hd1, hk⟩, hfalse⟩ := ih h
      exact ⟨⟨d1, List.mem_cons_of_mem _ hd1, hk⟩, hfalse⟩
    · simp only [generateCode, ht] at h
      have hk : d.code = k := by simpa using h
      subst hk
      exact ⟨⟨d, List.mem_cons_self _ _, rfl⟩, by simpa using ht⟩

/-! ## C3: a successful join -/

/-- C3: when the code of a `join-session` message names a session whose laptop
slot holds `p` and whose mobile slot is empty, the handler returns; the mobile
slot of that session becomes `c`, the laptop slot is still `p`, every other
session, the keys and the pending expiries are as before, `c._code` is the code of
the message and no other back-reference changes; the frames sent are the text of
the object with `type` `session-joined` and that `code` to `c`, then the text of
the object with `type` `peer-joined` to `p`, each if its receiver is open, and
nothing else. -/
theorem joinSession_success (isOpen : Conn → Bool) (draws : List Draw) (st : State)
    (c p : Conn) (msg : JVal) (k : String)
    (hty : msgType msg = some (.str "join-session"))
    (hk : (msgCode msg).toKey = some k)
    (hs : Store.own st.sessions k = some { laptop := some p, mobile := none }) :
    ∃ st1 out, onMessage isOpen draws st c (some msg) = .ok (st1, out) ∧
      Store.own st1.sessions k = some { laptop := some p, mobile := some c } ∧
      (∀ k1, k1 ≠ k → Store.own st1.sessions k1 = Store.own st.sessions k1) ∧
      Store.keys st1.sessions = Store.keys st.sessions ∧
      st1.getCode c = msgCode msg ∧
      (∀ d, d ≠ c → st1.getCode d = st.getCode d) ∧
      st1.timers = st.timers ∧
      out = safeSend isOpen (some c)
                (.obj (.cons "type" (.str "session-joined") (.cons "code" (msgCode msg) .nil)))
              ++ safeSend isOpen (some p) (.obj (.cons "type" (.str "peer-joined") .nil)) ∧
      (isOpen c = true → isOpen p = true →
        out = [(c, JVal.stringify
                    (.obj (.cons "type" (.str "session-joined") (.cons "code" (msgCode msg) .nil)))),
               (p, "\x7b\"type\":\"peer-joined\"\x7d")]) ∧
      (isOpen c = true → isOpen p = true → msgCode msg ≠ .undefined →
        out = [(c, "\x7b\"type\":\"session-joined\",\"code\":" ++ (msgCode msg).stringify
                    ++ "\x7d"),
               (p, "\x7b\"type\":\"peer-joined\"\x7d")]) := by
  rw [onMessage_join isOpen draws st c msg hty]
  simp only [joinSession, hk, read_of_own_some _ _ _ hs]
  refine ⟨_, _, rfl, ?_, ?_, ?_, ?_, ?_, rfl, rfl, ?_, ?_⟩
  · simp [Store.own_update, hs]
  · intro k1 hk1
    simp [Store.own_update, hk1]
  · exact Store.keys_update _ _ _
  · exact getCode_cons_self st _ _ c _
  · intro d hd
    exact getCode_cons_other st _ _ c d _ hd
  · intro hc hp
    simp only [safeSend, hc, hp, if_true, List.singleton_append]
    rfl
  · intro hc hp hcode
    simp only [safeSend, hc, hp, if_true, List.singleton_append]
    cases hv : msgCode msg <;> first | exact absurd hv hcode | rfl

/-- Witness for C3: connection 1 joins the waiting session 100000 of laptop 0. -/
theorem joinSession_success_witness :
    Store.own waitingState.sessions "100000" = some { laptop := some 0, mobile := none } ∧
    ∃ st1,
      onMessage allOpen [] waitingState 1
          (some (joinMessage (.str "100000")))
        = .ok (st1,
            [(1, "\x7b\"type\":\"session-joined\",\"code\":\"100000\"\x7d"),
             (0, "\x7b\"type\":\"peer-joined\"\x7d")]) ∧
      Store.own st1.sessions "100000" = some { laptop := some 0, mobile := some 1 } ∧
      st1.getCode 1 = .str "100000" := by
  obtain ⟨st1, out, hres, hown, _, _, hcode, _, _, _, hout, _⟩ :=
    joinSession_success allOpen [] waitingState 1 0
      (joinMessage (.str "100000"))
      "100000" rfl rfl rfl
  refine ⟨rfl, st1, ?_, hown, hcode⟩
  rw [hres, hout rfl rfl]
  rfl

/-! ## C4: a failed join -/

/-- C4: when the code of a `join-session` message names no own entry of the store,
or an entry whose mobile slot is occupied or whose laptop slot is empty, the
handler returns with the state as it was (store, back-references and pending
expiries) and its only send is one of the three `error` objects, handed to
`safeSend` for `c`: one frame to `c` when `c` is open, the text of the object with
`type` `error` and that `message`. -/
theorem joinSession_failure_atomic (isOpen : Conn → Bool) (draws : List Draw) (st : State)
    (c : Conn) (msg : JVal) (k : String)
    (hty : msgType msg = some (.str "join-session"))
    (hk : (msgCode msg).toKey = some k)
    (herr : Store.own st.sessions k = none ∨
      ∃ s, Store.own st.sessions k = some s ∧ (s.mobile ≠ none ∨ s.laptop = none)) :
    ∃ text, text ∈ [notFoundText, occupiedText, laptopGoneText] ∧
      onMessage isOpen draws st c (some msg)
        = .ok (st, safeSend isOpen (some c) (errorMessage text)) ∧
      (isOpen c = true →
        onMessage isOpen draws st c (some msg)
          = .ok (st, [(c, "\x7b\"type\":\"error\",\"message\":\"" ++ text ++ "\"\x7d")])) := by
  rw [onMessage_join isOpen draws st c msg hty]
  have hopen : ∀ text, isOpen c = true →
      safeSend isOpen (some c) (errorMessage text) = [(c, (errorMessage text).stringify)] :=
    fun text h => safeSend_open isOpen c _ h
  rcases herr with hnone | ⟨s, hs, hbad⟩
  · by_cases hp : k ∈ objectPrototypeKeys
    · refine ⟨laptopGoneText, by simp, ?_, ?_⟩
      · simp [joinSession, hk, Store.read, hnone, hp]
      · intro h
        simp only [joinSession, hk, Store.read, hnone, hp, hopen _ h, if_true, if_false]
        rfl
    · refine ⟨notFoundText, by simp, ?_, ?_⟩
      · simp [joinSession, hk, Store.read, hnone, hp]
      · intro h
        simp only [joinSession, hk, Store.read, hnone, hp, hopen _ h, if_true, if_false]
        rfl
  · by_cases hm : s.mobile.isSome = true
    · refine ⟨occupiedText, by simp, ?_, ?_⟩
      · simp [joinSession, hk, Store.read, hs, hm]
      · intro h
        simp only [joinSession, hk, Store.read, hs, hm, hopen _ h, if_true]
        rfl
    · have hmn : s.mobile = none := by simpa using hm
      have hl : s.laptop = none := by
        rcases hbad with h | h
        · exact absurd hmn h
        · exact h
      refine ⟨laptopGoneText, by simp, ?_, ?_⟩
      · simp [joinSession, hk, Store.read, hs, hmn, hl]
      · intro h
        simp [joinSession, hk, Store.read, hs, hmn, hl, hopen _ h]
        rfl

/-- Witness for C4: connection 2 asks for session 100000, which laptop 0 and
mobile 1 already fill; it gets the error and the state is as before. -/
theorem joinSession_failure_atomic_witness :
    (Store.own pairedState.sessions "100000" = none ∨
      ∃ s, Store.own pairedState.sessions "100000" = some s ∧
        (s.mobile ≠ none ∨ s.laptop = none)) ∧
    ∃ text, text ∈ [notFoundText, occupiedText, laptopGoneText] ∧
      onMessage allOpen [] pairedState 2
        (some (joinMessage (.str "100000")))
        = .ok (pairedState,
            [(2, "\x7b\"type\":\"error\",\"message\":\"" ++ text ++ "\"\x7d")]) := by
  have herr : Store.own pairedState.sessions "100000" = none ∨
      ∃ s, Store.own pairedState.sessions "100000" = some s ∧
        (s.mobile ≠ none ∨ s.laptop = none) :=
    Or.inr ⟨{ laptop := some 0, mobile := some 1 }, rfl, Or.inl (by decide)⟩
  obtain ⟨text, hmem, _, hopen⟩ :=
    joinSession_failure_atomic allOpen [] pairedState 2
      (joinMessage (.str "100000"))
      "100000" rfl rfl herr
  exact ⟨herr, text, hmem, hopen rfl⟩

/-! ## Relay of `offer`, `answer` and `ice-candidate` -/

theorem Store.WF_no_undefined (store : Store) (hwf : Store.WF store) :
    Store.own store "undefined" = none := by
  rw [Store.own_eq_none_iff]
  intro hmem
  obtain ⟨n, hn⟩ := hwf.2 _ hmem
  exact toString_nat_ne_undefined n hn.symm

theorem relay_no_entry (isOpen : Conn → Bool) (st : State) (ws : Conn) (msg : JVal)
    (k : String) (hk : (st.getCode ws).toKey = some k) (hnone : Store.own st.sessions k = none) :
    relay isOpen st ws msg = .ok (st, []) := by
  by_cases hp : k ∈ objectPrototypeKeys
  · simp [relay, hk, Store.read, hnone, hp]
  · simp [relay, hk, Store.read, hnone, hp]

/-- Relay, as the code does it: for a message `m` of type `offer`, `answer` or
`ice-candidate` from `s`, in a well-formed store: when `s._code` is `undefined`,
or names no own entry of the store, nothing is sent; when `s` holds a slot of the
session that `s._code` names and the other slot is empty, nothing is sent; when
the other slot holds an open `p` other than `s`, the only frame sent goes to `p`
and is the text `JSON.stringify(m)` of the parsed message. In each case the
handler returns and the state is as before. -/
theorem relay_forwards (isOpen : Conn → Bool) (draws : List Draw) (st : State) (s : Conn)
    (m t : JVal) (hwf : Store.WF st.sessions) (hm : msgType m = some t)
    (ht : isRelayType t) :
    (st.getCode s = .undefined → onMessage isOpen draws st s (some m) = .ok (st, [])) ∧
    (∀ k, (st.getCode s).toKey = some k → Store.own st.sessions k = none →
      onMessage isOpen draws st s (some m) = .ok (st, [])) ∧
    (∀ k sess r, (st.getCode s).toKey = some k → Store.own st.sessions k = some sess →
      sess.slot r = some s → sess.peerOf r = none →
        onMessage isOpen draws st s (some m) = .ok (st, [])) ∧
    (∀ k sess r p, (st.getCode s).toKey = some k → Store.own st.sessions k = some sess →
      sess.slot r = some s → sess.peerOf r = some p → p ≠ s → isOpen p = true →
        onMessage isOpen draws st s (some m) = .ok (st, [(p, m.stringify)])) := by
  rw [onMessage_relay isOpen draws st s m t hm ht]
  refine ⟨?_, ?_, ?_, ?_⟩
  · intro hunset
    exact relay_no_entry isOpen st s m "undefined" (by rw [hunset]; rfl)
      (Store.WF_no_undefined _ hwf)
  · intro k hk hnone
    exact relay_no_entry isOpen st s m k hk hnone
  · intro k sess r hk hown hslot hpeer
    cases r with
    | laptop =>
      have hl : sess.laptop = some s := hslot
      have hmob : sess.mobile = none := hpeer
      simp [relay, hk, Store.read, hown, hl, hmob, safeSend]
    | mobile =>
      have hl : sess.laptop = none := hpeer
      simp [relay, hk, Store.read, hown, hl, safeSend]
  · intro k sess r p hk hown hslot hpeer hne hopen
    cases r with
    | laptop =>
      have hl : sess.laptop = some s := hslot
      have hmob : sess.mobile = some p := hpeer
      simp [relay, hk, Store.read, hown, hl, hmob, safeSend, hopen]
    | mobile =>
      have hl : sess.laptop = some p := hpeer
      simp [relay, hk, Store.read, hown, hl, hne, safeSend, hopen]

/-- Samples of relay in the paired session 100000: an offer of laptop 0 reaches
mobile 1 alone, an answer of mobile 1 reaches laptop 0 alone, and an offer of the
unassigned connection 5 reaches nobody. -/
theorem relay_forwards_samples :
    Store.WF pairedState.sessions ∧
    onMessage allOpen [] pairedState 0 (some sampleOffer)
      = .ok (pairedState, [(1, "\x7b\"type\":\"offer\",\"sdp\":\"v=0\"\x7d")]) ∧
    onMessage allOpen [] pairedState 1 (some sampleAnswer)
      = .ok (pairedState, [(0, "\x7b\"type\":\"answer\",\"sdp\":\"v=0\"\x7d")]) ∧
    onMessage allOpen [] pairedState 5 (some sampleOffer) = .ok (pairedState, []) := by
  have hwf : Store.WF pairedState.sessions := Store.WF_single 100000 _
  refine ⟨hwf, ?_, ?_, ?_⟩
  · exact (relay_forwards allOpen [] pairedState 0 sampleOffer (.str "offer") hwf rfl
      (Or.inl rfl)).2.2.2 "100000" { laptop := some 0, mobile := some 1 } .laptop 1
      rfl rfl rfl rfl (by decide) rfl
  · exact (relay_forwards allOpen [] pairedState 1 sampleAnswer (.str "answer") hwf rfl
      (Or.inr (Or.inl rfl))).2.2.2 "100000" { laptop := some 0, mobile := some 1 } .mobile 0
      rfl rfl rfl rfl (by decide) rfl
  · exact (relay_forwards allOpen [] pairedState 5 sampleOffer (.str "offer") hwf rfl
      (Or.inl rfl)).1 rfl

/-! ## Well-formedness of reachable stores -/

theorem Store.WF_of_keys_eq (store store1 : Store) (hwf : Store.WF store)
    (h : Store.keys store1 = Store.keys store) : Store.WF store1 := by
  unfold Store.WF
  rw [h]
  exact hwf

theorem Store.WF_set_new (store : Store) (key : String) (v : Session) (hwf : Store.WF store)
    (hnew : Store.own store key = none) (hcode : ∃ n : Nat, key = toString n) :
    Store.WF (Store.set store key v) := by
  have hperm : (Store.keys (Store.set store key v)).Perm (key :: Store.keys store) := by
    have hp := (Store.insertNew_perm key v store).map Prod.fst
    simpa [Store.set, hnew, Store.keys] using hp
  constructor
  · rw [hperm.nodup_iff]
    exact List.nodup_cons.2 ⟨(Store.own_eq_none_iff store key).1 hnew, hwf.1⟩
  · intro k hk
    rcases List.mem_cons.1 (hperm.mem_iff.1 hk) with h | h
    · rw [h]
      exact hcode
    · exact hwf.2 k h

theorem Store.WF_erase (store : Store) (key : String) (hwf : Store.WF store) :
    Store.WF (Store.erase store key) := by
  have hsub := Store.keys_erase_sublist store key
  exact ⟨hwf.1.sublist hsub, fun k hk => hwf.2 k (hsub.subset hk)⟩

theorem expiryCallback_WF (store : Store) (code : String) (hwf : Store.WF store) :
    Store.WF (expiryCallback store code) := by
  unfold expiryCallback
  split
  · split
    · exact Store.WF_erase store code hwf
    · exact hwf
  · exact Store.WF_erase store code hwf
  · exact Store.WF_erase store code hwf

theorem createSession_WF (isOpen : Conn → Bool) (draws : List Draw) (st st1 : State)
    (ws : Conn) (out : List Send) (hwf : Store.WF st.sessions)
    (h : createSession isOpen draws st ws = .ok (st1, out)) : Store.WF st1.sessions := by
  unfold createSession at h
  cases hgen : generateCode st.sessions draws with
  | none => simp [hgen] at h
  | some code =>
    simp only [hgen, Outcome.ok.injEq, Prod.mk.injEq] at h
    obtain ⟨⟨d, _, hd⟩, hfalse⟩ := generateCode_some _ _ _ hgen
    rw [← h.1]
    exact Store.WF_set_new _ _ _ hwf (read_not_truthy _ _ hfalse) ⟨_, hd⟩

theorem joinSession_WF (isOpen : Conn → Bool) (st st1 : State) (ws : Conn) (msg : JVal)
    (out : List Send) (hwf : Store.WF st.sessions)
    (h : joinSession isOpen st ws msg = .ok (st1, out)) : Store.WF st1.sessions := by
  unfold joinSession at h
  simp only at h
  split at h
  · cases h
  · split at h
    · simp only [Outcome.ok.injEq, Prod.mk.injEq] at h
      rw [← h.1]
      exact hwf
    · simp only [Outcome.ok.injEq, Prod.mk.injEq] at h
      rw [← h.1]
      exact hwf
    · split at h
      · simp only [Outcome.ok.injEq, Prod.mk.injEq] at h
        rw [← h.1]
        exact hwf
      · split at h
        · simp only [Outcome.ok.injEq, Prod.mk.injEq] at h
          rw [← h.1]
          exact hwf
        · simp only [Outcome.ok.injEq, Prod.mk.injEq] at h
          rw [← h.1]
          exact Store.WF_of_keys_eq _ _ hwf (Store.keys_update _ _ _)

theorem relay_state (isOpen : Conn → Bool) (st st1 : State) (ws : Conn) (msg : JVal)
    (out : List Send) (h : relay isOpen st ws msg = .ok (st1, out)) : st1 = st := by
  unfold relay at h
  split at h
  · cases h
  · split at h <;>
      · simp only [Outcome.ok.injEq, Prod.mk.injEq] at h
        exact h.1.symm

theorem onMessage_WF (isOpen : Conn → Bool) (draws : List Draw) (st st1 : State) (ws : Conn)
    (parsed : Option JVal) (out : List Send) (hwf : Store.WF st.sessions)
    (h : onMessage isOpen draws st ws parsed = .ok (st1, out)) : Store.WF st1.sessions := by
  unfold onMessage at h
  split at h
  · simp only [Outcome.ok.injEq, Prod.mk.injEq] at h
    rw [← h.1]
    exact hwf
  · split at h
    · cases h
    · split at h
      · exact createSession_WF isOpen draws st st1 ws out hwf h
      · split at h
        · exact joinSession_WF isOpen st st1 ws _ out hwf h
        · split at h
          · rw [relay_state isOpen st st1 ws _ out h]
            exact hwf
          · split at h <;>
              · simp only [Outcome.ok.injEq, Prod.mk.injEq] at h
                rw [← h.1]
                exact hwf

theorem step_WF (isOpen : Conn → Bool) (st st1 : State) (ev : Event) (out : List Send)
    (hwf : Store.WF st.sessions) (h : step isOpen st ev = .ok (st1, out)) :
    Store.WF st1.sessions := by
  cases ev with
  | message ws parsed draws => exact onMessage_WF isOpen draws st st1 ws parsed out hwf h
  | close ws =>
    simp only [step, Outcome.ok.injEq] at h
    have hst : st1 = (cleanupSocket isOpen st ws).1 := by rw [h]
    rw [hst]
    exact Store.WF_of_keys_eq _ _ hwf (cleanupScan_keys isOpen ws st.sessions)
  | error ws =>
    simp only [step, Outcome.ok.injEq] at h
    have hst : st1 = (cleanupSocket isOpen st ws).1 := by rw [h]
    rw [hst]
    exact Store.WF_of_keys_eq _ _ hwf (cleanupScan_keys isOpen ws st.sessions)
  | expire i =>
    simp only [step, Outcome.ok.injEq, Prod.mk.injEq] at h
    rw [← h.1]
    unfold fireTimer
    split
    · exact expiryCallback_WF _ _ hwf
    · exact hwf

theorem Reachable.wf (st : State) (h : Reachable st) : Store.WF st.sessions := by
  induction h with
  | init => exact ⟨by simp [State.empty, Store.keys], by simp [State.empty, Store.keys]⟩
  | next isOpen ev st st1 out _ hstep ih => exact step_WF isOpen st st1 ev out ih hstep

/-! ## C8: `create-session` -/

/-- C8: for a `create-session` message from `c` and draws on which `generateCode`
returns `k`, the handler returns; `k` was no key of the store, the new store is
the old one with the one entry `k` added, whose laptop slot is `c` and whose
mobile slot is empty; every other key reads as before; `c._code` is `k` and no
other back-reference or pending expiry changes; the only send is the object with
`type` `session-created` and `code` `k`, handed to `safeSend` for `c`: when `c` is
open, one frame to `c` with the text of that object. -/
theorem createSession_adds_entry (isOpen : Conn → Bool) (draws : List Draw) (st : State)
    (c : Conn) (msg : JVal) (k : String)
    (hty : msgType msg = some (.str "create-session"))
    (hgen : generateCode st.sessions draws = some k) :
    ∃ st1, onMessage isOpen draws st c (some msg)
        = .ok (st1, safeSend isOpen (some c)
            (.obj (.cons "type" (.str "session-created") (.cons "code" (.str k) .nil)))) ∧
      Store.own st.sessions k = none ∧
      st1.sessions.Perm ((k, { laptop := some c, mobile := none }) :: st.sessions) ∧
      Store.own st1.sessions k = some { laptop := some c, mobile := none } ∧
      (∀ k1, k1 ≠ k → Store.own st1.sessions k1 = Store.own st.sessions k1) ∧
      st1.getCode c = .str k ∧
      (∀ d, d ≠ c → st1.getCode d = st.getCode d) ∧
      st1.timers = st.timers ∧
      (isOpen c = true →
        onMessage isOpen draws st c (some msg)
          = .ok (st1, [(c, "\x7b\"type\":\"session-created\",\"code\":\"" ++ k ++ "\"\x7d")])) := by
  have hnew : Store.own st.sessions k = none :=
    read_not_truthy _ _ (generateCode_some _ _ _ hgen).2
  have hdigits : ∀ x ∈ k.data, x.isDigit = true := by
    obtain ⟨⟨d, _, hd⟩, _⟩ := generateCode_some _ _ _ hgen
    rw [hd]
    exact toString_nat_isDigit _
  rw [onMessage_create isOpen draws st c msg hty]
  simp only [createSession, hgen]
  refine ⟨_, rfl, hnew, ?_, ?_, ?_, ?_, ?_, rfl, ?_⟩
  · simpa [Store.set, hnew] using Store.insertNew_perm k _ st.sessions
  · simp [Store.own_set]
  · intro k1 hk1
    simp [Store.own_set, hk1]
  · exact getCode_cons_self st _ _ c _
  · intro d hd
    exact getCode_cons_other st _ _ c d _ hd
  · intro h
    rw [safeSend_open isOpen c _ h, sessionCreated_text, quoteJSON_digits k hdigits,
      text_quote_assoc]
    rfl

/-- Witness for C8: connection 3 creates a session while session 100000 exists;
the first draw, 0, gives the code 100000, which is taken, and the second, 1/2,
gives 550000. -/
theorem createSession_adds_entry_witness :
    generateCode waitingState.sessions [{ num := 0, den := 1 }, { num := 1, den := 2 }]
      = some "550000" ∧
    ∃ st1,
      onMessage allOpen [{ num := 0, den := 1 }, { num := 1, den := 2 }] waitingState 3
          (some createMessage)
        = .ok (st1, [(3, "\x7b\"type\":\"session-created\",\"code\":\"550000\"\x7d")]) ∧
      Store.own st1.sessions "550000" = some { laptop := some 3, mobile := none } ∧
      Store.own st1.sessions "100000" = some { laptop := some 0, mobile := none } ∧
      st1.getCode 3 = .str "550000" ∧ st1.getCode 0 = .str "100000" := by
  have hgen : generateCode waitingState.sessions
      [{ num := 0, den := 1 }, { num := 1, den := 2 }] = some "550000" := by decide
  obtain ⟨st1, _, _, _, hown, hother, hcode, hcodes, _, hopen⟩ :=
    createSession_adds_entry allOpen [{ num := 0, den := 1 }, { num := 1, den := 2 }]
      waitingState 3 createMessage "550000" rfl hgen
  refine ⟨hgen, st1, hopen rfl, hown, ?_, hcode, ?_⟩
  · rw [hother "100000" (by decide)]
    rfl
  · rw [hcodes 0 (by decide)]
    rfl

/-! ## C9: generated codes are fresh -/

/-- C9: a code that `generateCode` returns is no key of the store it was called
on; in every reachable state the keys of the store are pairwise distinct; and a
`create-session` that returns leaves every entry the store had, an entry with two
empty slots included, under its key with the same occupants. -/
theorem generateCode_fresh :
    (∀ (store : Store) (draws : List Draw) (k : String),
      generateCode store draws = some k → k ∉ Store.keys store) ∧
    (∀ st, Reachable st → (Store.keys st.sessions).Nodup) ∧
    (∀ (isOpen : Conn → Bool) (draws : List Draw) (st st1 : State) (c : Conn) (msg : JVal)
        (out : List Send),
      msgType msg = some (.str "create-session") →
      onMessage isOpen draws st c (some msg) = .ok (st1, out) →
        ∀ k s, Store.own st.sessions k = some s → Store.own st1.sessions k = some s) := by
  refine ⟨?_, ?_, ?_⟩
  · intro store draws k hgen
    exact (Store.own_eq_none_iff store k).1
      (read_not_truthy _ _ (generateCode_some _ _ _ hgen).2)
  · intro st hst
    exact (Reachable.wf st hst).1
  · intro isOpen draws st st1 c msg out hty hres k s hown
    rw [onMessage_create isOpen draws st c msg hty] at hres
    unfold createSession at hres
    cases hgen : generateCode st.sessions draws with
    | none => simp [hgen] at hres
    | some code =>
      simp only [hgen, Outcome.ok.injEq, Prod.mk.injEq] at hres
      have hnew : Store.own st.sessions code = none :=
        read_not_truthy _ _ (generateCode_some _ _ _ hgen).2
      have hk : k ≠ code := by
        intro h
        rw [h, hnew] at hown
        cases hown
      rw [← hres.1]
      simp [Store.own_set, hk, hown]

/-! ## The one-slot invariant under clients that ask once -/

theorem AtMostOneSlot_of_occupies_subset (store store1 : Store)
    (hsub : ∀ ws code role, Occupies store1 ws code role → Occupies store ws code role)
    (hinv : AtMostOneSlot store) : AtMostOneSlot store1 := by
  intro ws c1 r1 c2 r2 h1 h2
  exact hinv ws c1 r1 c2 r2 (hsub _ _ _ h1) (hsub _ _ _ h2)

theorem occupies_after_cleanupScan (isOpen : Conn → Bool) (conn : Conn) (store : Store)
    (hnd : (Store.keys store).Nodup) (ws : Conn) (code : String) (role : Role)
    (h : Occupies (cleanupScan isOpen conn store).1 ws code role) :
    Occupies store ws code role := by
  rcases cleanupScan_spec isOpen conn store hnd with ⟨_, heq⟩ | ⟨c, s, r, hown, _, heq⟩
  · rw [heq] at h
    exact h
  · rw [heq] at h
    obtain ⟨s1, hs1, hslot⟩ := h
    by_cases hc : code = c
    · subst hc
      simp only [Store.own_update, if_true, hown, Option.map_some'] at hs1
      have hs : s.clear r = s1 := Option.some.inj hs1
      subst hs
      refine ⟨s, hown, ?_⟩
      cases r <;> cases role <;> simp_all [Session.clear, Session.slot]
    · simp only [Store.own_update, hc, if_false] at hs1
      exact ⟨s1, hs1, hslot⟩

theorem occupies_after_expiry (store : Store) (c : String) (ws : Conn) (code : String)
    (role : Role) (h : Occupies (expiryCallback store c) ws code role) :
    Occupies store ws code role := by
  obtain ⟨s, hs, hslot⟩ := h
  by_cases hc : code = c
  · subst hc
    unfold expiryCallback at hs
    split at hs
    · split at hs
      · simp [Store.own_erase] at hs
      · exact ⟨s, hs, hslot⟩
    · simp [Store.own_erase] at hs
    · simp [Store.own_erase] at hs
  · rw [expiryCallback_own_other store c code hc] at hs
    exact ⟨s, hs, hslot⟩

theorem createSession_one_slot (isOpen : Conn → Bool) (draws : List Draw) (st st1 : State)
    (ws : Conn) (out : List Send) (hinv : AtMostOneSlot st.sessions)
    (hfree : HoldsNoSlot st.sessions ws)
    (h : createSession isOpen draws st ws = .ok (st1, out)) :
    AtMostOneSlot st1.sessions := by
  unfold createSession at h
  cases hgen : generateCode st.sessions draws with
  | none => simp [hgen] at h
  | some k =>
    simp only [hgen, Outcome.ok.injEq, Prod.mk.injEq] at h
    rw [← h.1]
    have hold : ∀ w code role,
        Occupies (Store.set st.sessions k { laptop := some ws, mobile := none }) w code role →
          (code = k ∧ role = .laptop ∧ w = ws) ∨ (code ≠ k ∧ Occupies st.sessions w code role) := by
      rintro w code role ⟨s, hs, hslot⟩
      by_cases hc : code = k
      · left
        simp only [Store.own_set, hc, if_true, Option.some.injEq] at hs
        subst hs
        cases role with
        | laptop => exact ⟨hc, rfl, by simpa [Session.slot] using hslot.symm⟩
        | mobile => simp [Session.slot] at hslot
      · right
        simp only [Store.own_set, hc, if_false] at hs
        exact ⟨hc, s, hs, hslot⟩
    intro w c1 r1 c2 r2 h1 h2
    rcases hold w c1 r1 h1 with ⟨hc1, hr1, hw1⟩ | ⟨hc1, ho1⟩
    · rcases hold w c2 r2 h2 with ⟨hc2, hr2, _⟩ | ⟨_, ho2⟩
      · exact ⟨hc1.trans hc2.symm, hr1.trans hr2.symm⟩
      · exact absurd (hw1 ▸ ho2) (hfree c2 r2)
    · rcases hold w c2 r2 h2 with ⟨_, _, hw2⟩ | ⟨_, ho2⟩
      · exact absurd (hw2 ▸ ho1) (hfree c1 r1)
      · exact hinv w c1 r1 c2 r2 ho1 ho2

theorem joinSession_one_slot (isOpen : Conn → Bool) (st st1 : State) (ws : Conn) (msg : JVal)
    (out : List Send) (hinv : AtMostOneSlot st.sessions)
    (hfree : HoldsNoSlot st.sessions ws)
    (h : joinSession isOpen st ws msg = .ok (st1, out)) :
    AtMostOneSlot st1.sessions := by
  unfold joinSession at h
  simp only at h
  split at h
  · cases h
  · rename_i key _
    split at h
    · simp only [Outcome.ok.injEq, Prod.mk.injEq] at h
      rw [← h.1]
      exact hinv
    · simp only [Outcome.ok.injEq, Prod.mk.injEq] at h
      rw [← h.1]
      exact hinv
    · rename_i session hread
      have hown : Store.own st.sessions key = some session := by
        unfold Store.read at hread
        cases ho : Store.own st.sessions key with
        | none =>
          rw [ho] at hread
          by_cases hp : key ∈ objectPrototypeKeys <;> simp [hp] at hread
        | some s =>
          rw [ho] at hread
          simp only [Lookup.session.injEq] at hread
          rw [hread]
      split at h
      · simp only [Outcome.ok.injEq, Prod.mk.injEq] at h
        rw [← h.1]
        exact hinv
      · rename_i hmob
        split at h
        · simp only [Outcome.ok.injEq, Prod.mk.injEq] at h
          rw [← h.1]
          exact hinv
        · simp only [Outcome.ok.injEq, Prod.mk.injEq] at h
          rw [← h.1]
          have hold : ∀ w code role,
              Occupies (Store.update key { session with mobile := some ws } st.sessions)
                  w code role →
                (code = key ∧ role = .mobile ∧ w = ws) ∨ Occupies st.sessions w code role := by
            rintro w code role ⟨s, hs, hslot⟩
            by_cases hc : code = key
            · simp only [Store.own_update, hc, if_true, hown, Option.map_some',
                Option.some.injEq] at hs
              subst hs
              cases role with
              | laptop =>
                right
                exact ⟨session, hc ▸ hown, hslot⟩
              | mobile =>
                left
                exact ⟨hc, rfl, by simpa [Session.slot] using hslot.symm⟩
            · right
              simp only [Store.own_update, hc, if_false] at hs
              exact ⟨s, hs, hslot⟩
          intro w c1 r1 c2 r2 h1 h2
          rcases hold w c1 r1 h1 with ⟨hc1, hr1, hw1⟩ | ho1
          · rcases hold w c2 r2 h2 with ⟨hc2, hr2, _⟩ | ho2
            · exact ⟨hc1.trans hc2.symm, hr1.trans hr2.symm⟩
            · exact absurd (hw1 ▸ ho2) (hfree c2 r2)
          · rcases hold w c2 r2 h2 with ⟨_, _, hw2⟩ | ho2
            · exact absurd (hw2 ▸ ho1) (hfree c1 r1)
            · exact hinv w c1 r1 c2 r2 ho1 ho2

theorem AtMostOneSlot_step (isOpen : Conn → Bool) (st st1 : State) (ev : Event)
    (out : List Send) (hwf : Store.WF st.sessions) (hinv : AtMostOneSlot st.sessions)
    (hask : ev.asksOnce st) (h : step isOpen st ev = .ok (st1, out)) :
    AtMostOneSlot st1.sessions := by
  cases ev with
  | message ws parsed draws =>
    cases parsed with
    | none =>
      simp only [step, onMessage, Outcome.ok.injEq, Prod.mk.injEq] at h
      rw [← h.1]
      exact hinv
    | some msg =>
      simp only [step] at h
      simp only [Event.asksOnce] at hask
      unfold onMessage at h
      simp only at h
      split at h
      · cases h
      · rename_i t ht
        split at h
        · rename_i hc
          exact createSession_one_slot isOpen draws st st1 ws out hinv
            (hask (Or.inl (by rw [ht, hc]))) h
        · split at h
          · rename_i hj
            exact joinSession_one_slot isOpen st st1 ws msg out hinv
              (hask (Or.inr (by rw [ht, hj]))) h
          · split at h
            · rw [relay_state isOpen st st1 ws _ out h]
              exact hinv
            · split at h <;>
                · simp only [Outcome.ok.injEq, Prod.mk.injEq] at h
                  rw [← h.1]
                  exact hinv
  | close ws =>
    simp only [step, Outcome.ok.injEq] at h
    have hst : st1 = (cleanupSocket isOpen st ws).1 := by rw [h]
    rw [hst]
    exact AtMostOneSlot_of_occupies_subset _ _
      (fun w c r ho => occupies_after_cleanupScan isOpen ws st.sessions hwf.1 w c r ho) hinv
  | error ws =>
    simp only [step, Outcome.ok.injEq] at h
    have hst : st1 = (cleanupSocket isOpen st ws).1 := by rw [h]
    rw [hst]
    exact AtMostOneSlot_of_occupies_subset _ _
      (fun w c r ho => occupies_after_cleanupScan isOpen ws st.sessions hwf.1 w c r ho) hinv
  | expire i =>
    simp only [step, Outcome.ok.injEq, Prod.mk.injEq] at h
    rw [← h.1]
    unfold fireTimer
    split
    · exact AtMostOneSlot_of_occupies_subset _ _
        (fun w c r ho => occupies_after_expiry st.sessions _ w c r ho) hinv
    · exact hinv

/-! ## C1, C6: a connection that creates twice -/

theorem waitingState_reachable : Reachable waitingState :=
  Reachable.next allOpen (.message 0 (some createMessage) [{ num := 0, den := 1 }])
    State.empty waitingState [(0, "\x7b\"type\":\"session-created\",\"code\":\"100000\"\x7d")] Reachable.init (by decide)

theorem doubleCreateState_reachable : Reachable doubleCreateState :=
  Reachable.next allOpen (.message 0 (some createMessage) [{ num := 1, den := 2 }])
    waitingState doubleCreateState [(0, "\x7b\"type\":\"session-created\",\"code\":\"550000\"\x7d")] waitingState_reachable
    (by decide)

theorem selfJoinedState_reachable : Reachable selfJoinedState :=
  Reachable.next allOpen (.message 0 (some (joinMessage (.str "100000"))) [])
    waitingState selfJoinedState [(0, "\x7b\"type\":\"session-joined\",\"code\":\"100000\"\x7d"),
      (0, "\x7b\"type\":\"peer-joined\"\x7d")]
    waitingState_reachable (by decide)

/-- C1 fails on the code: connection 0 sends `create-session` twice, with the
draws 0 and 1/2; the state reached holds connection 0 in the laptop slot of
100000 and in the laptop slot of 550000. Likewise, when connection 0 creates
100000 and then sends `join-session` for it, the state reached holds connection 0
in both slots of 100000. -/
theorem create_twice_two_slots :
    Reachable doubleCreateState ∧
    Occupies doubleCreateState.sessions 0 "100000" .laptop ∧
    Occupies doubleCreateState.sessions 0 "550000" .laptop ∧
    ¬ AtMostOneSlot doubleCreateState.sessions ∧
    Reachable selfJoinedState ∧
    Occupies selfJoinedState.sessions 0 "100000" .laptop ∧
    Occupies selfJoinedState.sessions 0 "100000" .mobile ∧
    ¬ AtMostOneSlot selfJoinedState.sessions := by
  have h1 : Occupies doubleCreateState.sessions 0 "100000" .laptop := ⟨_, rfl, rfl⟩
  have h2 : Occupies doubleCreateState.sessions 0 "550000" .laptop :=
    ⟨{ laptop := some 0, mobile := none }, by decide, rfl⟩
  have h3 : Occupies selfJoinedState.sessions 0 "100000" .laptop := ⟨_, rfl, rfl⟩
  have h4 : Occupies selfJoinedState.sessions 0 "100000" .mobile := ⟨_, rfl, rfl⟩
  refine ⟨doubleCreateState_reachable, h1, h2, ?_, selfJoinedState_reachable, h3, h4, ?_⟩
  · intro hall
    exact absurd (hall 0 "100000" .laptop "550000" .laptop h1 h2).1 (by decide)
  · intro hall
    exact absurd (hall 0 "100000" .laptop "100000" .mobile h3 h4).2 (by decide)

/-- C6 fails on the code: in the reachable state where connection 0 holds the
laptop slots of 100000 and 550000, `cleanupSocket` of connection 0 empties the
slot of 100000 and stops; connection 0 still holds the laptop slot of 550000. -/
theorem cleanup_stops_at_first_slot :
    Reachable doubleCreateState ∧
    (cleanupSocket allOpen doubleCreateState 0).1.sessions
      = [("100000", { laptop := none, mobile := none }),
         ("550000", { laptop := some 0, mobile := none })] ∧
    Occupies (cleanupSocket allOpen doubleCreateState 0).1.sessions 0 "550000" .laptop := by
  refine ⟨doubleCreateState_reachable, by decide, ?_⟩
  exact ⟨{ laptop := some 0, mobile := none }, by decide, rfl⟩

/-! ## C2: the outcome of `join-session` -/

theorem joinSession_table (isOpen : Conn → Bool) (st : State) (ws : Conn) (msg : JVal)
    (k : String) (hk : (msgCode msg).toKey = some k) :
    (Store.own st.sessions k = none → k ∉ objectPrototypeKeys →
      joinSession isOpen st ws msg
        = .ok (st, safeSend isOpen (some ws) (errorMessage notFoundText))) ∧
    (Store.own st.sessions k = none → k ∈ objectPrototypeKeys →
      joinSession isOpen st ws msg
        = .ok (st, safeSend isOpen (some ws) (errorMessage laptopGoneText))) ∧
    (∀ s, Store.own st.sessions k = some s → s.mobile ≠ none →
      joinSession isOpen st ws msg
        = .ok (st, safeSend isOpen (some ws) (errorMessage occupiedText))) ∧
    (∀ s, Store.own st.sessions k = some s → s.mobile = none → s.laptop = none →
      joinSession isOpen st ws msg
        = .ok (st, safeSend isOpen (some ws) (errorMessage laptopGoneText))) := by
  refine ⟨?_, ?_, ?_, ?_⟩
  · intro hnone hp
    simp [joinSession, hk, Store.read, hnone, hp]
  · intro hnone hp
    simp [joinSession, hk, Store.read, hnone, hp]
  · intro s hs hm
    have hsome : s.mobile.isSome = true := by
      cases hmob : s.mobile with
      | none => exact absurd hmob hm
      | some c => rfl
    simp [joinSession, hk, Store.read, hs, hsome]
  · intro s hs hm hl
    simp [joinSession, hk, Store.read, hs, hm, hl]

/-- C2 fails on the code: the store is empty, so it holds no session for the code
`"constructor"`, yet `join-session` with that code is answered with the error of
the empty laptop slot, not with the error of the unknown session; and with a code
object that has an own property `toString` the handler throws and answers
nothing. -/
theorem join_inherited_key :
    Store.own State.empty.sessions "constructor" = none ∧
    onMessage allOpen [] State.empty 1 (some (joinMessage (.str "constructor")))
      = .ok (State.empty, [(1, "\x7b\"type\":\"error\",\"message\":"
              ++ "\"Laptop disconnected. Ask them to create a new session.\"\x7d")]) ∧
    onMessage allOpen [] State.empty 1
        (some (joinMessage (.obj (.cons "toString" (.num "0") .nil))))
      = .throws := by
  refine ⟨rfl, by decide, by decide⟩

/-! ## C11, C12: frames without a known type -/

/-- Frames without a known type: a frame that fails to parse, and a frame that
parses to a value whose `type` is none of the six known strings (a missing `type`
included), make the handler return with the state as it was and nothing sent; a
parse result whose `type` cannot be read makes the handler throw. -/
theorem onMessage_ignored (isOpen : Conn → Bool) (draws : List Draw) (st : State)
    (ws : Conn) :
    onMessage isOpen draws st ws none = .ok (st, []) ∧
    (∀ msg t, msgType msg = some t → ¬ isKnownType t →
      onMessage isOpen draws st ws (some msg) = .ok (st, [])) ∧
    (∀ msg, msgType msg = none → onMessage isOpen draws st ws (some msg) = .throws) := by
  refine ⟨rfl, ?_, ?_⟩
  · intro msg t ht hknown
    have h1 : t ≠ .str "create-session" := fun h => hknown (Or.inl h)
    have h2 : t ≠ .str "join-session" := fun h => hknown (Or.inr (Or.inl h))
    have h3 : ¬ (t = .str "offer" ∨ t = .str "answer" ∨ t = .str "ice-candidate") :=
      fun h => hknown (Or.inr (Or.inr (Or.inl h)))
    have h4 : t ≠ .str "ping" := fun h => hknown (Or.inr (Or.inr (Or.inr h)))
    simp [onMessage, ht, h1, h2, h3, h4]
  · intro msg hnone
    simp [onMessage, hnone]

theorem pairedState_reachable : Reachable pairedState :=
  Reachable.next allOpen (.message 1 (some (joinMessage (.str "100000"))) [])
    waitingState pairedState [(1, "\x7b\"type\":\"session-joined\",\"code\":\"100000\"\x7d"),
      (0, "\x7b\"type\":\"peer-joined\"\x7d")]
    waitingState_reachable (by decide)

/-- C11 fails on the code: the frame `null` is valid JSON, `JSON.parse` returns
`null` outside any `catch`, and the read `msg.type` of line 72 throws; the handler
is left by an exception, on the empty store as in a state with a paired session. A
`join-session` whose code is an object with an own `toString` throws as well. -/
theorem null_frame_throws :
    onMessage allOpen [] State.empty 0 (some .null) = .throws ∧
    step allOpen State.empty (.message 0 (some .null) []) = .throws ∧
    Reachable pairedState ∧
    step allOpen pairedState (.message 1 (some .null) []) = .throws ∧
    step allOpen pairedState
        (.message 1 (some (joinMessage (.obj (.cons "toString" (.num "0") .nil)))) [])
      = .throws := by
  refine ⟨rfl, rfl, pairedState_reachable, rfl, by decide⟩

/-- Samples of frames without a known type, in the paired session 100000: a frame
that does not parse, the frame `42` and a frame of the unknown type `hello` are
dropped. -/
theorem onMessage_ignored_samples :
    onMessage allOpen [] pairedState 0 none = .ok (pairedState, []) ∧
    onMessage allOpen [] pairedState 0 (some (.num "42")) = .ok (pairedState, []) ∧
    onMessage allOpen [] pairedState 0 (some (.obj (.cons "type" (.str "hello") .nil)))
      = .ok (pairedState, []) := by
  have h := onMessage_ignored allOpen [] pairedState 0
  refine ⟨h.1, h.2.1 (.num "42") .undefined rfl ?_,
    h.2.1 (.obj (.cons "type" (.str "hello") .nil)) (.str "hello") rfl ?_⟩
  · unfold isKnownType isRelayType
    decide
  · unfold isKnownType isRelayType
    decide

/-- C12 fails on the code: the frame `null` parses, its value has none of the six
types, and handling it does not drop it: the handler is left by the exception of
the read `msg.type`, not by the default case with the state as it was. -/
theorem null_frame_not_dropped :
    msgType .null = none ∧
    (∀ t, msgType .null = some t → ¬ isKnownType t) ∧
    onMessage allOpen [] pairedState 0 (some .null) = .throws ∧
    onMessage allOpen [] pairedState 0 (some .null) ≠ .ok (pairedState, []) := by
  refine ⟨rfl, ?_, rfl, by decide⟩
  intro t ht
  cases ht

/-! ## C5: what the peer receives -/

/-- C5 fails on the code: in the reachable paired session 100000 the laptop 0
sends the frame `{"type":"offer","x":1e400}`; the parsed message has `x` equal to
`Infinity`, and the one frame the mobile 1 gets is the text with `x` equal to
`null`, which is the text of another message: the payload field is not
unchanged. -/
theorem relay_rewrites_payload :
    Reachable pairedState ∧
    msgType overflowOffer = some (.str "offer") ∧
    onMessage allOpen [] pairedState 0 (some overflowOffer)
      = .ok (pairedState, [(1, "\x7b\"type\":\"offer\",\"x\":null\x7d")]) ∧
    JVal.stringify (.obj (.cons "type" (.str "offer") (.cons "x" .null .nil)))
      = "\x7b\"type\":\"offer\",\"x\":null\x7d" ∧
    overflowOffer ≠ .obj (.cons "type" (.str "offer") (.cons "x" .null .nil)) := by
  refine ⟨pairedState_reachable, rfl, by decide, rfl, by decide⟩

/-! ## C13: `ping` -/

/-- C13: a message of type `ping` from an open connection `c`, whatever slot `c`
holds, makes the handler return with the state as it was (store, back-references,
pending expiries) and with exactly one frame sent, to `c`: the text of the object
whose only property is `type` with the value `pong`. -/
theorem ping_pong (isOpen : Conn → Bool) (draws : List Draw) (st : State) (c : Conn)
    (msg : JVal) (hty : msgType msg = some (.str "ping")) (hopen : isOpen c = true) :
    onMessage isOpen draws st c (some msg) = .ok (st, [(c, "\x7b\"type\":\"pong\"\x7d")]) := by
  simp [onMessage, hty, safeSend, hopen, pong_text]

/-- Witness for C13: the mobile 1 of the paired session 100000 sends a ping and is
the only one to get the pong. -/
theorem ping_pong_witness :
    msgType pingMessage = some (.str "ping") ∧ allOpen 1 = true ∧
    onMessage allOpen [] pairedState 1 (some pingMessage) = .ok (pairedState, [(1, "\x7b\"type\":\"pong\"\x7d")]) :=
  ⟨rfl, rfl, ping_pong allOpen [] pairedState 1 pingMessage rfl rfl⟩

/-! ## C16: relay after disconnect -/

/-- C16 fails on the code: in the reachable paired session 100000, the mobile 1
disconnects; `cleanupSocket` empties its slot and leaves its `_code`; an offer
handled from connection 1 afterwards is sent to the laptop 0. -/
theorem relay_after_disconnect :
    Reachable pairedState ∧
    cleanupSocket allOpen pairedState 1 = (mobileLeftState, [(0, "\x7b\"type\":\"peer-disconnected\",\"role\":\"mobile\"\x7d")]) ∧
    HoldsNoSlot mobileLeftState.sessions 1 ∧
    onMessage allOpen [] mobileLeftState 1 (some sampleOffer)
      = .ok (mobileLeftState, [(0, "\x7b\"type\":\"offer\",\"sdp\":\"v=0\"\x7d")]) := by
  refine ⟨pairedState_reachable, by decide, ?_, by decide⟩
  rintro code role ⟨s, hs, hslot⟩
  by_cases hc : "100000" = code
  · have hs1 : s = { laptop := some 0, mobile := none } := by
      simpa [mobileLeftState, Store.own, hc] using hs.symm
    subst hs1
    cases role <;> simp [Session.slot] at hslot
  · simp [mobileLeftState, Store.own, hc] at hs

/-! ## C17: `generateCode` returns the first fresh draw -/

theorem read_code_truthy (store : Store) (d : Draw) :
    (Store.read store d.code).truthy = true ↔ d.code ∈ Store.keys store := by
  have hnot : d.code ∉ objectPrototypeKeys := toString_nat_not_inherited _
  unfold Store.read
  cases hown : Store.own store d.code with
  | none =>
    have hmem : d.code ∉ Store.keys store := (Store.own_eq_none_iff store d.code).1 hown
    simp [hnot, Lookup.truthy, hmem]
  | some s =>
    have hmem : d.code ∈ Store.keys store := by
      by_contra hcon
      rw [(Store.own_eq_none_iff store d.code).2 hcon] at hown
      cases hown
    simp [Lookup.truthy, hmem]

theorem generateCode_skip (store : Store) (pre rest : List Draw)
    (hpre : ∀ e ∈ pre, e.code ∈ Store.keys store) :
    generateCode store (pre ++ rest) = generateCode store rest := by
  induction pre with
  | nil => rfl
  | cons e pre ih =>
    have he : (Store.read store e.code).truthy = true :=
      (read_code_truthy store e).2 (hpre e (List.mem_cons_self _ _))
    simp only [List.cons_append, generateCode, he, if_true]
    exact ih (fun x hx => hpre x (List.mem_cons_of_mem _ hx))

theorem generateCode_hit (store : Store) (d : Draw) (post : List Draw)
    (hd : d.code ∉ Store.keys store) : generateCode store (d :: post) = some d.code := by
  have hfalse : ¬ (Store.read store d.code).truthy = true :=
    fun h => hd ((read_code_truthy store d).1 h)
  simp [generateCode, hfalse]

theorem generateCode_split (store : Store) (draws : List Draw) (k : String)
    (h : generateCode store draws = some k) :
    ∃ pre d post, draws = pre ++ d :: post ∧ (∀ e ∈ pre, e.code ∈ Store.keys store) ∧
      d.code ∉ Store.keys store ∧ k = d.code := by
  induction draws with
  | nil => simp [generateCode] at h
  | cons e rest ih =>
    by_cases he : e.code ∈ Store.keys store
    · have ht : (Store.read store e.code).truthy = true := (read_code_truthy store e).2 he
      simp only [generateCode, ht, if_true] at h
      obtain ⟨pre, d, post, hdraws, hpre, hd, hk⟩ := ih h
      refine ⟨e :: pre, d, post, by simp [hdraws], ?_, hd, hk⟩
      intro x hx
      rcases List.mem_cons.1 hx with hx | hx
      · rw [hx]
        exact he
      · exact hpre x hx
    · rw [generateCode_hit store e rest he] at h
      exact ⟨[], e, rest, rfl, by simp, he, (Option.some.inj h).symm⟩

/-- C17: with the draws of `Math.random()` given as a list, `generateCode` returns
the code of the first draw whose code is no key of the store: the draws before it
do not make it return, the draws up to it do, and the draws after it play no part.
It returns whenever some draw of the list has a code that is no key of the store,
and what it returns is always such a first draw. It reads the store and has no
other result than the code, so the store is as before. -/
theorem generateCode_first_fresh (store : Store) (draws : List Draw) :
    (∀ pre d post, draws = pre ++ d :: post →
      (∀ e ∈ pre, e.code ∈ Store.keys store) → d.code ∉ Store.keys store →
        generateCode store draws = some d.code ∧
        generateCode store pre = none ∧
        generateCode store (pre ++ [d]) = some d.code) ∧
    ((∃ d, d ∈ draws ∧ d.code ∉ Store.keys store) → ∃ k, generateCode store draws = some k) ∧
    (∀ k, generateCode store draws = some k →
      ∃ pre d post, draws = pre ++ d :: post ∧ (∀ e ∈ pre, e.code ∈ Store.keys store) ∧
        d.code ∉ Store.keys store ∧ k = d.code) := by
  refine ⟨?_, ?_, ?_⟩
  · intro pre d post hdraws hpre hd
    refine ⟨?_, ?_, ?_⟩
    · rw [hdraws, generateCode_skip store pre _ hpre]
      exact generateCode_hit store d post hd
    · have h := generateCode_skip store pre [] hpre
      simpa [generateCode] using h
    · rw [generateCode_skip store pre _ hpre]
      exact generateCode_hit store d [] hd
  · rintro ⟨d, hmem, hd⟩
    induction draws with
    | nil => simp at hmem
    | cons e rest ih =>
      by_cases he : e.code ∈ Store.keys store
      · have hrest : d ∈ rest := by
          rcases List.mem_cons.1 hmem with h | h
          · rw [h] at hd
            exact absurd he hd
          · exact h
        obtain ⟨k, hk⟩ := ih hrest
        refine ⟨k, ?_⟩
        have h := generateCode_skip store [e] rest (by simpa using he)
        simpa [hk] using h
      · exact ⟨e.code, generateCode_hit store e rest he⟩
  · intro k hk
    exact generateCode_split store draws k hk

/-! ## C18: a second disconnect -/

theorem cleanupSocket_no_slot (isOpen : Conn → Bool) (st : State) (conn : Conn)
    (hnd : (Store.keys st.sessions).Nodup) (hnone : HoldsNoSlot st.sessions conn) :
    cleanupSocket isOpen st conn = (st, []) := by
  rcases cleanupScan_spec isOpen conn st.sessions hnd with
    ⟨_, heq⟩ | ⟨code, s1, role, hown1, hrole, _⟩
  · rw [cleanupSocket_eq, heq]
    simp
  · exact absurd ⟨s1, hown1, roleOf_some_slot conn s1 role hrole⟩ (hnone code role)

theorem holdsNoSlot_after_cleanup (isOpen : Conn → Bool) (st : State) (conn : Conn)
    (hnd : (Store.keys st.sessions).Nodup)
    (hone : ∀ c1 r1 c2 r2, Occupies st.sessions conn c1 r1 →
      Occupies st.sessions conn c2 r2 → c1 = c2 ∧ r1 = r2) :
    HoldsNoSlot (cleanupSocket isOpen st conn).1.sessions conn := by
  rw [cleanupSocket_eq]
  rcases cleanupScan_spec isOpen conn st.sessions hnd with
    ⟨hall, heq⟩ | ⟨code, s, role, hown, hrole, heq⟩
  · rw [heq]
    rintro c r ⟨s, hs, hslot⟩
    exact absurd (hall c s hs) (slot_some_roleOf conn s r hslot)
  · rw [heq]
    have hheld : Occupies st.sessions conn code role :=
      ⟨s, hown, roleOf_some_slot conn s role hrole⟩
    rintro c r ⟨s1, hs1, hslot⟩
    by_cases hc : c = code
    · subst hc
      simp only [Store.own_update, if_true, hown, Option.map_some'] at hs1
      have hs : s.clear role = s1 := Option.some.inj hs1
      subst hs
      by_cases hr : r = role
      · subst hr
        rw [Session.clear_slot] at hslot
        cases hslot
      · have hold : s.slot r = some conn := by
          cases r <;> cases role <;> simp_all [Session.clear, Session.slot]
        exact hr (hone c r c role ⟨s, hown, hold⟩ hheld).2
    · simp only [Store.own_update, hc, if_false] at hs1
      exact hc (hone c r code role ⟨s1, hs1, hslot⟩ hheld).1

/-- C18: in a well-formed store where `conn` holds at most one slot, after
`cleanupSocket(conn)` the connection holds no slot, and a second
`cleanupSocket(conn)` returns the state the first one left (same store, same
back-references, same pending expiries) and sends nothing. -/
theorem cleanupSocket_idempotent (isOpen isOpen2 : Conn → Bool) (st : State) (conn : Conn)
    (hwf : Store.WF st.sessions)
    (hone : ∀ c1 r1 c2 r2, Occupies st.sessions conn c1 r1 →
      Occupies st.sessions conn c2 r2 → c1 = c2 ∧ r1 = r2) :
    HoldsNoSlot (cleanupSocket isOpen st conn).1.sessions conn ∧
    cleanupSocket isOpen2 (cleanupSocket isOpen st conn).1 conn
      = ((cleanupSocket isOpen st conn).1, []) := by
  have hfree := holdsNoSlot_after_cleanup isOpen st conn hwf.1 hone
  refine ⟨hfree, cleanupSocket_no_slot isOpen2 _ conn ?_ hfree⟩
  rw [cleanupSocket_eq, cleanupScan_keys]
  exact hwf.1

/-- Witness for C18: the laptop 0 of the paired session 100000 gets `error` and
then `close`; the mobile 1 is told once, and the second call changes nothing. -/
theorem cleanupSocket_idempotent_witness :
    Store.WF pairedState.sessions ∧
    (cleanupSocket allOpen pairedState 0).2 = [(1, "\x7b\"type\":\"peer-disconnected\",\"role\":\"laptop\"\x7d")] ∧
    cleanupSocket allOpen (cleanupSocket allOpen pairedState 0).1 0
      = ((cleanupSocket allOpen pairedState 0).1, []) := by
  have hwf : Store.WF pairedState.sessions := Store.WF_single 100000 _
  refine ⟨hwf, by decide, (cleanupSocket_idempotent allOpen allOpen pairedState 0 hwf ?_).2⟩
  rintro c1 r1 c2 r2 ⟨s1, hs1, h1⟩ ⟨s2, hs2, h2⟩
  have hkey : ∀ c s, Store.own pairedState.sessions c = some s →
      c = "100000" ∧ s = { laptop := some 0, mobile := some 1 } := by
    intro c s hs
    by_cases hc : "100000" = c
    · exact ⟨hc.symm, by simpa [pairedState, Store.own, hc] using hs.symm⟩
    · simp [pairedState, Store.own, hc] at hs
  obtain ⟨hc1, hv1⟩ := hkey c1 s1 hs1
  obtain ⟨hc2, hv2⟩ := hkey c2 s2 hs2
  subst hv1
  subst hv2
  refine ⟨hc1.trans hc2.symm, ?_⟩
  cases r1 <;> cases r2 <;> simp_all [Session.slot]

/-! ## What one event does to the store -/

theorem read_session_own (store : Store) (key : String) (session : Session)
    (h : Store.read store key = .session session) : Store.own store key = some session := by
  unfold Store.read at h
  cases ho : Store.own store key with
  | none =>
    rw [ho] at h
    by_cases hp : key ∈ objectPrototypeKeys <;> simp [hp] at h
  | some s =>
    rw [ho] at h
    simp only [Lookup.session.injEq] at h
    rw [h]

theorem createSession_cases (isOpen : Conn → Bool) (draws : List Draw) (st st1 : State)
    (ws : Conn) (out : List Send) (h : createSession isOpen draws st ws = .ok (st1, out)) :
    ∃ k, generateCode st.sessions draws = some k ∧ Store.own st.sessions k = none ∧
      st1.sessions = Store.set st.sessions k { laptop := some ws, mobile := none } ∧
      st1.timers = st.timers ∧ out = safeSend isOpen (some ws) (sessionCreated k) := by
  unfold createSession at h
  cases hgen : generateCode st.sessions draws with
  | none => simp [hgen] at h
  | some k =>
    simp only [hgen, Outcome.ok.injEq, Prod.mk.injEq] at h
    refine ⟨k, rfl, read_not_truthy _ _ (generateCode_some _ _ _ hgen).2, ?_, ?_, h.2.symm⟩
    · rw [← h.1]
    · rw [← h.1]

theorem joinSession_cases (isOpen : Conn → Bool) (st st1 : State) (ws : Conn) (msg : JVal)
    (out : List Send) (h : joinSession isOpen st ws msg = .ok (st1, out)) :
    st1 = st ∨
    ∃ key session, Store.own st.sessions key = some session ∧ session.mobile = none ∧
      session.laptop ≠ none ∧
      st1.sessions = Store.update key { session with mobile := some ws } st.sessions ∧
      st1.timers = st.timers := by
  unfold joinSession at h
  simp only at h
  split at h
  · cases h
  · rename_i key _
    split at h
    · simp only [Outcome.ok.injEq, Prod.mk.injEq] at h
      exact Or.inl h.1.symm
    · simp only [Outcome.ok.injEq, Prod.mk.injEq] at h
      exact Or.inl h.1.symm
    · rename_i session hread
      split at h
      · simp only [Outcome.ok.injEq, Prod.mk.injEq] at h
        exact Or.inl h.1.symm
      · rename_i hmob
        split at h
        · simp only [Outcome.ok.injEq, Prod.mk.injEq] at h
          exact Or.inl h.1.symm
        · rename_i hlap
          simp only [Outcome.ok.injEq, Prod.mk.injEq] at h
          right
          refine ⟨key, session, read_session_own _ _ _ hread, by simpa using hmob, ?_, ?_, ?_⟩
          · intro hl
            exact hlap (by simp [hl])
          · rw [← h.1]
          · rw [← h.1]

theorem onMessage_cases (isOpen : Conn → Bool) (draws : List Draw) (st st1 : State) (ws : Conn)
    (parsed : Option JVal) (out : List Send)
    (h : onMessage isOpen draws st ws parsed = .ok (st1, out)) :
    st1 = st ∨
    (∃ k, generateCode st.sessions draws = some k ∧ Store.own st.sessions k = none ∧
      st1.sessions = Store.set st.sessions k { laptop := some ws, mobile := none } ∧
      st1.timers = st.timers) ∨
    (∃ key session, Store.own st.sessions key = some session ∧ session.mobile = none ∧
      session.laptop ≠ none ∧
      st1.sessions = Store.update key { session with mobile := some ws } st.sessions ∧
      st1.timers = st.timers) := by
  unfold onMessage at h
  split at h
  · simp only [Outcome.ok.injEq, Prod.mk.injEq] at h
    exact Or.inl h.1.symm
  · split at h
    · cases h
    · split at h
      · obtain ⟨k, hgen, hnew, hs, ht, _⟩ := createSession_cases isOpen draws st st1 ws out h
        exact Or.inr (Or.inl ⟨k, hgen, hnew, hs, ht⟩)
      · split at h
        · rcases joinSession_cases isOpen st st1 ws _ out h with hsame | hjoin
          · exact Or.inl hsame
          · exact Or.inr (Or.inr hjoin)
        · split at h
          · exact Or.inl (relay_state isOpen st st1 ws _ out h)
          · split at h <;>
              · simp only [Outcome.ok.injEq, Prod.mk.injEq] at h
                exact Or.inl h.1.symm

theorem step_session_change (isOpen : Conn → Bool) (st st1 : State) (ev : Event)
    (out : List Send) (hwf : Store.WF st.sessions)
    (hstep : step isOpen st ev = .ok (st1, out)) (c : String) (s s1 : Session)
    (hs : Store.own st.sessions c = some s) (hs1 : Store.own st1.sessions c = some s1) :
    s1 = s ∨ (∃ role, s1 = s.clear role) ∨
      (∃ ws, s.laptop ≠ none ∧ s.mobile = none ∧ s1 = { s with mobile := some ws }) := by
  cases ev with
  | message ws parsed draws =>
    rcases onMessage_cases isOpen draws st st1 ws parsed out hstep with
      hst | ⟨k, _, hnew, hsess, _⟩ | ⟨key, session, hown, hmob, hlap, hsess, _⟩
    · left
      rw [hst, hs] at hs1
      exact (Option.some.inj hs1).symm
    · left
      have hck : c ≠ k := by
        intro h
        rw [h, hnew] at hs
        cases hs
      rw [hsess, Store.own_set] at hs1
      simp only [hck, if_false] at hs1
      rw [hs] at hs1
      exact (Option.some.inj hs1).symm
    · rw [hsess, Store.own_update] at hs1
      by_cases hc : c = key
      · subst hc
        rw [hs] at hown
        have hsession : s = session := Option.some.inj hown
        subst hsession
        simp only [if_true, hs, Option.map_some', Option.some.injEq] at hs1
        exact Or.inr (Or.inr ⟨ws, hlap, hmob, hs1.symm⟩)
      · simp only [hc, if_false] at hs1
        rw [hs] at hs1
        exact Or.inl (Option.some.inj hs1).symm
  | close ws =>
    simp only [step, Outcome.ok.injEq] at hstep
    have hst : st1 = (cleanupSocket isOpen st ws).1 := by rw [hstep]
    rw [hst, cleanupSocket_eq] at hs1
    rcases cleanupScan_spec isOpen ws st.sessions hwf.1 with
      ⟨_, heq⟩ | ⟨code, s0, role, hown, _, heq⟩
    · rw [heq] at hs1
      simp only at hs1
      rw [hs] at hs1
      exact Or.inl (Option.some.inj hs1).symm
    · rw [heq] at hs1
      simp only [Store.own_update] at hs1
      by_cases hc : c = code
      · subst hc
        rw [hs] at hown
        have hs0 : s = s0 := Option.some.inj hown
        subst hs0
        simp only [if_true, hs, Option.map_some', Option.some.injEq] at hs1
        exact Or.inr (Or.inl ⟨role, hs1.symm⟩)
      · simp only [hc, if_false] at hs1
        rw [hs] at hs1
        exact Or.inl (Option.some.inj hs1).symm
  | error ws =>
    simp only [step, Outcome.ok.injEq] at hstep
    have hst : st1 = (cleanupSocket isOpen st ws).1 := by rw [hstep]
    rw [hst, cleanupSocket_eq] at hs1
    rcases cleanupScan_spec isOpen ws st.sessions hwf.1 with
      ⟨_, heq⟩ | ⟨code, s0, role, hown, _, heq⟩
    · rw [heq] at hs1
      simp only at hs1
      rw [hs] at hs1
      exact Or.inl (Option.some.inj hs1).symm
    · rw [heq] at hs1
      simp only [Store.own_update] at hs1
      by_cases hc : c = code
      · subst hc
        rw [hs] at hown
        have hs0 : s = s0 := Option.some.inj hown
        subst hs0
        simp only [if_true, hs, Option.map_some', Option.some.injEq] at hs1
        exact Or.inr (Or.inl ⟨role, hs1.symm⟩)
      · simp only [hc, if_false] at hs1
        rw [hs] at hs1
        exact Or.inl (Option.some.inj hs1).symm
  | expire i =>
    simp only [step, Outcome.ok.injEq, Prod.mk.injEq] at hstep
    rw [← hstep.1] at hs1
    unfold fireTimer at hs1
    left
    split at hs1
    · rename_i code _
      by_cases hc : c = code
      · subst hc
        simp only at hs1
        unfold expiryCallback at hs1
        split at hs1
        · split at hs1
          · simp [Store.own_erase] at hs1
          · rw [hs] at hs1
            exact (Option.some.inj hs1).symm
        · simp [Store.own_erase] at hs1
        · simp [Store.own_erase] at hs1
      · simp only at hs1
        rw [expiryCallback_own_other st.sessions code c hc, hs] at hs1
        exact (Option.some.inj hs1).symm
    · rw [hs] at hs1
      exact (Option.some.inj hs1).symm

/-! ## C19: an emptied laptop slot stays empty -/

/-- C19: in a well-formed store, for every event that is handled to completion
(a message of any kind from any connection, `close`, `error`, the firing of an
expiry) and every session whose laptop slot is empty before the event: if the
session is still in the store afterwards, its laptop slot is still empty, and if
its mobile slot was empty too, both slots are empty afterwards. -/
theorem emptied_laptop_stays_empty (isOpen : Conn → Bool) (st st1 : State) (ev : Event)
    (out : List Send) (hwf : Store.WF st.sessions)
    (hstep : step isOpen st ev = .ok (st1, out)) (c : String) (s s1 : Session)
    (hs : Store.own st.sessions c = some s) (hl : s.laptop = none)
    (hs1 : Store.own st1.sessions c = some s1) :
    s1.laptop = none ∧ (s.mobile = none → s1.laptop = none ∧ s1.mobile = none) := by
  rcases step_session_change isOpen st st1 ev out hwf hstep c s s1 hs hs1 with
    h | ⟨role, h⟩ | ⟨ws, hlap, _, _⟩
  · subst h
    exact ⟨hl, fun hm => ⟨hl, hm⟩⟩
  · subst h
    cases role with
    | laptop => exact ⟨rfl, fun hm => ⟨rfl, hm⟩⟩
    | mobile => exact ⟨hl, fun _ => ⟨hl, rfl⟩⟩
  · exact absurd hl hlap

/-- Witness for C19: session 100000 has lost its laptop and kept its mobile 1; a
`join-session` of connection 2 for it is refused, and when the mobile 1 closes,
the session is left with both slots empty. -/
theorem emptied_laptop_stays_empty_witness :
    Store.WF laptopLeftState.sessions ∧
    step allOpen laptopLeftState (.message 2 (some (joinMessage (.str "100000"))) [])
      = .ok (laptopLeftState, [(2, "\x7b\"type\":\"error\",\"message\":"
          ++ "\"Session already has a mobile device connected.\"\x7d")]) ∧
    step allOpen laptopLeftState (.close 1)
      = .ok ({ sessions := [("100000", { laptop := none, mobile := none })],
               codeOf := [(1, .str "100000"), (0, .str "100000")],
               timers := ["100000"] }, []) ∧
    (({ laptop := none, mobile := some 1 } : Session).laptop = none ∧
      ({ laptop := none, mobile := none } : Session).laptop = none) := by
  have hwf : Store.WF laptopLeftState.sessions := Store.WF_single 100000 _
  have hjoin : step allOpen laptopLeftState
      (.message 2 (some (joinMessage (.str "100000"))) [])
      = .ok (laptopLeftState, [(2, "\x7b\"type\":\"error\",\"message\":"
          ++ "\"Session already has a mobile device connected.\"\x7d")]) := by decide
  have hclose : step allOpen laptopLeftState (.close 1)
      = .ok ({ sessions := [("100000", { laptop := none, mobile := none })],
               codeOf := [(1, .str "100000"), (0, .str "100000")],
               timers := ["100000"] }, []) := by decide
  exact ⟨hwf, hjoin, hclose,
    (emptied_laptop_stays_empty allOpen _ _ _ _ hwf hjoin "100000"
      { laptop := none, mobile := some 1 } { laptop := none, mobile := some 1 }
      rfl rfl rfl).1,
    (emptied_laptop_stays_empty allOpen _ _ _ _ hwf hclose "100000"
      { laptop := none, mobile := some 1 } { laptop := none, mobile := none }
      rfl rfl rfl).1⟩

/-! ## C20: every abandoned session has a pending expiry -/

theorem abandoned_has_timer_step (isOpen : Conn → Bool) (st st1 : State) (ev : Event)
    (out : List Send) (hwf : Store.WF st.sessions)
    (hinv : ∀ c s, Store.own st.sessions c = some s → s.laptop = none → s.mobile = none →
      c ∈ st.timers)
    (hstep : step isOpen st ev = .ok (st1, out)) :
    ∀ c s, Store.own st1.sessions c = some s → s.laptop = none → s.mobile = none →
      c ∈ st1.timers := by
  intro c s1 hs1 hl hm
  have hclean : ∀ ws, st1 = (cleanupSocket isOpen st ws).1 → c ∈ st1.timers := by
    intro ws hst
    rw [hst, cleanupSocket_eq] at hs1
    rw [hst, cleanupSocket_eq]
    rcases cleanupScan_spec isOpen ws st.sessions hwf.1 with
      ⟨_, heq⟩ | ⟨code, s0, role, hown, _, heq⟩
    · rw [heq] at hs1
      rw [heq]
      simpa using hinv c s1 hs1 hl hm
    · rw [heq] at hs1
      rw [heq]
      simp only [Store.own_update] at hs1
      by_cases hc : c = code
      · subst hc
        simp only [if_true, hown, Option.map_some', Option.some.injEq] at hs1
        have hb : (s0.clear role).bothEmpty = true := by
          rw [hs1]
          exact (Session.bothEmpty_iff s1).2 ⟨hl, hm⟩
        simp [hb]
      · simp only [hc, if_false] at hs1
        exact List.mem_append_left _ (hinv c s1 hs1 hl hm)
  cases ev with
  | message ws parsed draws =>
    rcases onMessage_cases isOpen draws st st1 ws parsed out hstep with
      hst | ⟨k, _, _, hsess, htim⟩ | ⟨key, session, _, _, _, hsess, htim⟩
    · rw [hst] at hs1 ⊢
      exact hinv c s1 hs1 hl hm
    · rw [hsess, Store.own_set] at hs1
      by_cases hc : c = k
      · simp only [hc, if_true, Option.some.injEq] at hs1
        rw [← hs1] at hl
        cases hl
      · simp only [hc, if_false] at hs1
        rw [htim]
        exact hinv c s1 hs1 hl hm
    · rw [hsess, Store.own_update] at hs1
      by_cases hc : c = key
      · simp only [hc, if_true] at hs1
        cases hown : Store.own st.sessions key with
        | none => simp [hown] at hs1
        | some x =>
          simp only [hown, Option.map_some', Option.some.injEq] at hs1
          rw [← hs1] at hm
          cases hm
      · simp only [hc, if_false] at hs1
        rw [htim]
        exact hinv c s1 hs1 hl hm
  | close ws =>
    simp only [step, Outcome.ok.injEq] at hstep
    exact hclean ws (by rw [hstep])
  | error ws =>
    simp only [step, Outcome.ok.injEq] at hstep
    exact hclean ws (by rw [hstep])
  | expire i =>
    simp only [step, Outcome.ok.injEq, Prod.mk.injEq] at hstep
    rw [← hstep.1] at hs1 ⊢
    cases hcode : st.timers[i]? with
    | none =>
      simp only [fireTimer, hcode] at hs1 ⊢
      exact hinv c s1 hs1 hl hm
    | some code =>
      simp only [fireTimer, hcode] at hs1 ⊢
      have hc : c ≠ code := by
        intro hc
        subst hc
        unfold expiryCallback at hs1
        split at hs1
        · rename_i s0 hread
          split at hs1
          · simp [Store.own_erase] at hs1
          · rename_i hb
            rw [read_session_own _ _ _ hread] at hs1
            have hs0 : s0 = s1 := Option.some.inj hs1
            exact hb (by rw [hs0]; exact (Session.bothEmpty_iff s1).2 ⟨hl, hm⟩)
        · simp [Store.own_erase] at hs1
        · simp [Store.own_erase] at hs1
      rw [expiryCallback_own_other st.sessions code c hc] at hs1
      obtain ⟨j, hj⟩ := List.mem_iff_getElem?.1 (hinv c s1 hs1 hl hm)
      refine List.mem_eraseIdx_iff_getElem?.2 ⟨j, ?_, hj⟩
      intro hji
      rw [hji, hcode] at hj
      exact hc (Option.some.inj hj).symm

/-- C20: in every state reachable from start-up (empty store, no pending expiry)
by handled events and firings of expiries, every session of the store whose two
slots are empty has a pending expiry for its code. -/
theorem abandoned_has_timer (st : State) (hreach : Reachable st) (c : String) (s : Session)
    (hs : Store.own st.sessions c = some s) (hl : s.laptop = none) (hm : s.mobile = none) :
    c ∈ st.timers := by
  induction hreach generalizing c s with
  | init => simp [State.empty, Store.own] at hs
  | next isOpen ev st0 st1 out hprev hstep ih =>
    exact abandoned_has_timer_step isOpen st0 st1 ev out (Reachable.wf st0 hprev)
      (fun c0 s0 h0 hl0 hm0 => ih c0 s0 h0 hl0 hm0) hstep c s hs hl hm

theorem abandonedState_reachable : Reachable abandonedState :=
  Reachable.next allOpen (.close 0) waitingState abandonedState [] waitingState_reachable
    (by decide)

/-- Witness for C20: the laptop 0 created session 100000 and closed; the session
has two empty slots and its expiry is pending. -/
theorem abandoned_has_timer_witness :
    Reachable abandonedState ∧
    Store.own abandonedState.sessions "100000" = some { laptop := none, mobile := none } ∧
    "100000" ∈ abandonedState.timers :=
  ⟨abandonedState_reachable, rfl,
    abandoned_has_timer abandonedState abandonedState_reachable "100000"
      { laptop := none, mobile := none } rfl rfl rfl⟩

/-! ## C14: the format of a generated code -/

theorem digitChar_toNat (m : Nat) (h : m < 10) : (Nat.digitChar m).toNat - 48 = m := by
  interval_cases m <;> decide

theorem toDigitsCore_six (f n : Nat) (ds : List Char) (hlo : 100000 ≤ n) (hhi : n < 1000000) :
    Nat.toDigitsCore 10 (f + 6) n ds =
      Nat.digitChar (n / 100000 % 10) :: Nat.digitChar (n / 10000 % 10) ::
      Nat.digitChar (n / 1000 % 10) :: Nat.digitChar (n / 100 % 10) ::
      Nat.digitChar (n / 10 % 10) :: Nat.digitChar (n % 10) :: ds := by
  have h1 : n / 10 ≠ 0 := by omega
  have h2 : n / 10 / 10 ≠ 0 := by omega
  have h3 : n / 10 / 10 / 10 ≠ 0 := by omega
  have h4 : n / 10 / 10 / 10 / 10 ≠ 0 := by omega
  have h5 : n / 10 / 10 / 10 / 10 / 10 ≠ 0 := by omega
  have h6 : n / 10 / 10 / 10 / 10 / 10 / 10 = 0 := by omega
  have e2 : n / 10 / 10 = n / 100 := by omega
  have e3 : n / 10 / 10 / 10 = n / 1000 := by omega
  have e4 : n / 10 / 10 / 10 / 10 = n / 10000 := by omega
  have e5 : n / 10 / 10 / 10 / 10 / 10 = n / 100000 := by omega
  simp only [Nat.toDigitsCore, h1, h2, h3, h4, h5, h6, if_true, if_false]
  rw [e5, e4, e3, e2]

theorem toString_six (n : Nat) (hlo : 100000 ≤ n) (hhi : n < 1000000) :
    (toString n).data =
      [Nat.digitChar (n / 100000 % 10), Nat.digitChar (n / 10000 % 10),
       Nat.digitChar (n / 1000 % 10), Nat.digitChar (n / 100 % 10),
       Nat.digitChar (n / 10 % 10), Nat.digitChar (n % 10)] := by
  have hrepr : toString n = (Nat.toDigits 10 n).asString := rfl
  rw [hrepr]
  simp only [List.asString, Nat.toDigits]
  obtain ⟨f, hf⟩ : ∃ f, n + 1 = f + 6 := ⟨n - 5, by omega⟩
  rw [hf, toDigitsCore_six f n [] hlo hhi]

theorem digitsValue_toString_six (n : Nat) (hlo : 100000 ≤ n) (hhi : n < 1000000) :
    digitsValue (toString n).data = n := by
  rw [toString_six n hlo hhi]
  simp only [digitsValue, List.foldl]
  rw [digitChar_toNat _ (Nat.mod_lt _ (by decide)), digitChar_toNat _ (Nat.mod_lt _ (by decide)),
    digitChar_toNat _ (Nat.mod_lt _ (by decide)), digitChar_toNat _ (Nat.mod_lt _ (by decide)),
    digitChar_toNat _ (Nat.mod_lt _ (by decide)), digitChar_toNat _ (Nat.mod_lt _ (by decide))]
  omega

theorem IsCode_toString (n : Nat) (hlo : 100000 ≤ n) (hhi : n < 1000000) :
    IsCode (toString n) := by
  have hval := digitsValue_toString_six n hlo hhi
  refine ⟨?_, toString_nat_isDigit n, by omega, by omega⟩
  show (toString n).data.length = 6
  rw [toString_six n hlo hhi]
  rfl

theorem excessBits_spec (fuel : Nat) : ∀ x, x ≤ fuel →
    x < 2 ^ 53 * 2 ^ excessBits fuel x ∧
    (2 ^ 53 ≤ x → 2 ^ 52 * 2 ^ excessBits fuel x ≤ x) ∧
    (x < 2 ^ 53 → excessBits fuel x = 0) := by
  induction fuel with
  | zero =>
    intro x hx
    have h0 : x = 0 := by omega
    subst h0
    simp [excessBits]
  | succ fuel ih =>
    intro x hx
    by_cases hsmall : x < 2 ^ 53
    · have he : excessBits (fuel + 1) x = 0 := by
        unfold excessBits
        exact if_pos hsmall
      rw [he]
      exact ⟨by simpa using hsmall, fun h => absurd hsmall (by omega), fun _ => rfl⟩
    · have he : excessBits (fuel + 1) x = excessBits fuel (x / 2) + 1 := by
        conv_lhs => unfold excessBits
        exact if_neg hsmall
      rw [he]
      have hbig : 2 ^ 53 ≤ x := by omega
      have hhalf : x / 2 ≤ fuel := by
        have : (2 : Nat) ^ 53 = 9007199254740992 := by norm_num
        omega
      obtain ⟨h1, h2, h3⟩ := ih (x / 2) hhalf
      have hp : 2 ^ (excessBits fuel (x / 2) + 1) = 2 ^ excessBits fuel (x / 2) * 2 :=
        pow_succ _ _
      rw [hp]
      refine ⟨?_, fun _ => ?_, fun h => absurd h hsmall⟩
      · have : x < 2 * (2 ^ 53 * 2 ^ excessBits fuel (x / 2)) := by omega
        calc x < 2 * (2 ^ 53 * 2 ^ excessBits fuel (x / 2)) := this
          _ = 2 ^ 53 * (2 ^ excessBits fuel (x / 2) * 2) := by ring
      · by_cases hq : 2 ^ 53 ≤ x / 2
        · have := h2 hq
          calc 2 ^ 52 * (2 ^ excessBits fuel (x / 2) * 2)
              = 2 * (2 ^ 52 * 2 ^ excessBits fuel (x / 2)) := by ring
            _ ≤ 2 * (x / 2) := by omega
            _ ≤ x := by omega
        · have hz := h3 (by omega)
          rw [hz]
          have : (2 : Nat) ^ 53 = 9007199254740992 := by norm_num
          have : (2 : Nat) ^ 52 = 4503599627370496 := by norm_num
          have hone : (2 : Nat) ^ 0 = 1 := rfl
          rw [hone]
          omega

theorem roundToDouble_exact (x : Nat) (h : x < 2 ^ 53) : roundToDouble x = x := by
  have hs := (excessBits_spec x x (le_refl x)).2.2 h
  unfold roundToDouble
  simp [hs, Nat.mod_one]

theorem pow_two_pos (s : Nat) : 0 < 2 ^ s := Nat.pow_pos (by decide)

theorem roundToDouble_ge (x M : Nat) (hdvd : 2 ^ excessBits x x ∣ M) (hle : M ≤ x) :
    M ≤ roundToDouble x := by
  obtain ⟨m, hm⟩ := hdvd
  have hq := pow_two_pos (excessBits x x)
  have hf : m ≤ x / 2 ^ excessBits x x := by
    rw [Nat.le_div_iff_mul_le hq, Nat.mul_comm, ← hm]
    exact hle
  have h1 : M ≤ 2 ^ excessBits x x * (x / 2 ^ excessBits x x) := by
    rw [hm]
    exact Nat.mul_le_mul_left _ hf
  have h2 : 2 ^ excessBits x x * (x / 2 ^ excessBits x x)
      ≤ 2 ^ excessBits x x * (x / 2 ^ excessBits x x + 1) := Nat.mul_le_mul_left _ (by omega)
  unfold roundToDouble
  simp only
  split
  · exact h1
  · split
    · exact le_trans h1 h2
    · split
      · exact h1
      · exact le_trans h1 h2

theorem roundToDouble_le (x M : Nat) (hdvd : 2 ^ excessBits x x ∣ M) (hle : x ≤ M) :
    roundToDouble x ≤ M := by
  obtain ⟨m, hm⟩ := hdvd
  have hq := pow_two_pos (excessBits x x)
  have hdm := Nat.div_add_mod x (2 ^ excessBits x x)
  have hmod := Nat.mod_lt x hq
  have h1 : 2 ^ excessBits x x * (x / 2 ^ excessBits x x) ≤ M := by
    have : 2 ^ excessBits x x * (x / 2 ^ excessBits x x) ≤ x := by omega
    omega
  by_cases hrem : x % 2 ^ excessBits x x = 0
  · unfold roundToDouble
    simp [hrem, hq]
    exact h1
  · have hlt : x / 2 ^ excessBits x x < m := by
      rw [Nat.div_lt_iff_lt_mul hq]
      by_contra hcon
      have hge : m * 2 ^ excessBits x x ≤ x := by omega
      have hxM : x = M := by
        rw [hm, Nat.mul_comm]
        rw [hm, Nat.mul_comm] at hle
        omega
      exact hrem (Nat.mod_eq_zero_of_dvd ⟨m, hxM.trans hm⟩)
    have h2 : 2 ^ excessBits x x * (x / 2 ^ excessBits x x + 1) ≤ M := by
      rw [hm]
      exact Nat.mul_le_mul_left _ hlt
    unfold roundToDouble
    simp only
    split
    · exact h1
    · split
      · exact h2
      · split
        · exact h1
        · exact h2

theorem roundToDouble_near (x M : Nat) (hdvd : 2 ^ excessBits x x ∣ M) (hle : M ≤ x)
    (hnear : 2 * (x - M) < 2 ^ excessBits x x) : roundToDouble x = M := by
  obtain ⟨m, hm⟩ := hdvd
  have hq := pow_two_pos (excessBits x x)
  have hlt : x - M < 2 ^ excessBits x x := by omega
  have hdivmod : ∀ q : Nat, 0 < q → M = q * m → x - M < q → x / q = m ∧ x % q = x - M := by
    intro q hq0 hM hr
    have hx : x = (x - M) + m * q := by
      rw [Nat.mul_comm, ← hM]
      omega
    constructor
    · rw [hx, Nat.add_mul_div_right _ _ hq0, Nat.div_eq_of_lt hr, Nat.zero_add]
    · conv_lhs => rw [hx]
      rw [Nat.add_mul_mod_self_right, Nat.mod_eq_of_lt hr]
  obtain ⟨hdiv, hmod⟩ := hdivmod _ hq hm hlt
  unfold roundToDouble
  simp only [hdiv, hmod, hnear, if_true]
  exact hm.symm

theorem excessBits_dvd_of_lt (x n : Nat) (h : x < 2 ^ 53 * 2 ^ n) :
    2 ^ excessBits x x ∣ 2 ^ n := by
  obtain ⟨_, h2, h3⟩ := excessBits_spec x x (le_refl x)
  by_cases hsmall : x < 2 ^ 53
  · rw [h3 hsmall]
    exact one_dvd _
  · have hlo := h2 (by omega)
    have hlt : 2 ^ excessBits x x < 2 ^ (n + 1) := by
      have h53 : (2 : Nat) ^ 53 = 2 ^ 52 * 2 := by norm_num
      have hlt2 : 2 ^ 52 * 2 ^ excessBits x x < 2 ^ 52 * (2 * 2 ^ n) := by
        calc 2 ^ 52 * 2 ^ excessBits x x ≤ x := hlo
          _ < 2 ^ 53 * 2 ^ n := h
          _ = 2 ^ 52 * (2 * 2 ^ n) := by rw [h53, Nat.mul_assoc]
      have := Nat.lt_of_mul_lt_mul_left hlt2
      rw [pow_succ, Nat.mul_comm]
      exact this
    have hle : excessBits x x < n + 1 := (Nat.pow_lt_pow_iff_right (by decide)).1 hlt
    exact pow_dvd_pow 2 (by omega)

theorem excessBits_of_binade (x n : Nat) (hlo : 2 ^ 52 * 2 ^ n ≤ x) (hhi : x < 2 ^ 53 * 2 ^ n) :
    excessBits x x = n := by
  obtain ⟨h1, _, _⟩ := excessBits_spec x x (le_refl x)
  have hdvd := excessBits_dvd_of_lt x n hhi
  have hle : excessBits x x ≤ n := (Nat.pow_dvd_pow_iff_le_right (by decide)).1 hdvd
  have hlt : 2 ^ n < 2 ^ (excessBits x x + 1) := by
    have h53 : (2 : Nat) ^ 53 = 2 ^ 52 * 2 := by norm_num
    have hlt2 : 2 ^ 52 * 2 ^ n < 2 ^ 52 * (2 * 2 ^ excessBits x x) := by
      calc 2 ^ 52 * 2 ^ n ≤ x := hlo
        _ < 2 ^ 53 * 2 ^ excessBits x x := h1
        _ = 2 ^ 52 * (2 * 2 ^ excessBits x x) := by rw [h53, Nat.mul_assoc]
    have := Nat.lt_of_mul_lt_mul_left hlt2
    rw [pow_succ, Nat.mul_comm]
    exact this
  have hge : n < excessBits x x + 1 := (Nat.pow_lt_pow_iff_right (by decide)).1 hlt
  omega

theorem representable_gap (num k : Nat) (hlt : num < 2 ^ k)
    (hrep : num % 2 ^ excessBits num num = 0) : 2 ^ k ≤ 2 ^ 53 * (2 ^ k - num) := by
  obtain ⟨h1, h2, h3⟩ := excessBits_spec num num (le_refl num)
  have hq := pow_two_pos (excessBits num num)
  have hsk : excessBits num num ≤ k := by
    by_cases hsmall : num < 2 ^ 53
    · rw [h3 hsmall]
      exact Nat.zero_le _
    · have hlo := h2 (by omega)
      have : 2 ^ excessBits num num < 2 ^ k := by
        have h52 : 1 ≤ 2 ^ 52 := Nat.one_le_two_pow
        calc 2 ^ excessBits num num = 1 * 2 ^ excessBits num num := (Nat.one_mul _).symm
          _ ≤ 2 ^ 52 * 2 ^ excessBits num num := Nat.mul_le_mul_right _ h52
          _ ≤ num := hlo
          _ < 2 ^ k := hlt
      exact le_of_lt ((Nat.pow_lt_pow_iff_right (by decide)).1 this)
  obtain ⟨a, ha⟩ := Nat.dvd_of_mod_eq_zero hrep
  obtain ⟨b, hb⟩ : 2 ^ excessBits num num ∣ 2 ^ k := pow_dvd_pow 2 hsk
  have hab : a < b := by
    by_contra hcon
    have : 2 ^ excessBits num num * b ≤ 2 ^ excessBits num num * a :=
      Nat.mul_le_mul_left _ (by omega)
    omega
  have hgap : 2 ^ excessBits num num ≤ 2 ^ k - num := by
    have : 2 ^ excessBits num num * (a + 1) ≤ 2 ^ excessBits num num * b :=
      Nat.mul_le_mul_left _ hab
    rw [Nat.mul_add, Nat.mul_one] at this
    omega
  by_cases hk : k ≤ 53 + excessBits num num
  · calc 2 ^ k ≤ 2 ^ (53 + excessBits num num) := Nat.pow_le_pow_right (by decide) hk
      _ = 2 ^ 53 * 2 ^ excessBits num num := pow_add 2 53 _
      _ ≤ 2 ^ 53 * (2 ^ k - num) := Nat.mul_le_mul_left _ hgap
  · have hk1 : 2 ^ (53 + excessBits num num) ≤ 2 ^ (k - 1) :=
      Nat.pow_le_pow_right (by decide) (by omega)
    have hk2 : 2 ^ k = 2 * 2 ^ (k - 1) := by
      have : k = (k - 1) + 1 := by omega
      conv_lhs => rw [this, pow_succ, Nat.mul_comm]
    have hk3 : num < 2 ^ (k - 1) := by
      calc num < 2 ^ 53 * 2 ^ excessBits num num := h1
        _ = 2 ^ (53 + excessBits num num) := (pow_add 2 53 _).symm
        _ ≤ 2 ^ (k - 1) := hk1
    have h53 : (2 : Nat) ^ 53 = 9007199254740992 := by norm_num
    rw [h53]
    omega

theorem Draw.sum_bounds (num k : Nat) (hlt : num < 2 ^ k)
    (hrep : num % 2 ^ excessBits num num = 0) :
    100000 * 2 ^ k ≤ roundToDouble (100000 * 2 ^ k + roundToDouble (num * 900000)) ∧
    roundToDouble (100000 * 2 ^ k + roundToDouble (num * 900000)) < 1000000 * 2 ^ k := by
  have h53 : (2 : Nat) ^ 53 = 9007199254740992 := by norm_num
  have h52 : (2 : Nat) ^ 52 = 4503599627370496 := by norm_num
  by_cases hk : k ≤ 33
  · have hD : 2 ^ k ≤ 2 ^ 33 := Nat.pow_le_pow_right (by decide) hk
    have h33 : (2 : Nat) ^ 33 = 8589934592 := by norm_num
    have hP : roundToDouble (num * 900000) = num * 900000 :=
      roundToDouble_exact _ (by omega)
    rw [hP, roundToDouble_exact _ (by omega)]
    omega
  · have hsplit : 2 ^ k = 2 ^ 33 * 2 ^ (k - 33) := by
      rw [← pow_add]
      congr 1
      omega
    have h33 : (2 : Nat) ^ 33 = 8589934592 := by norm_num
    have hgap := representable_gap num k hlt hrep
    generalize hT : 2 ^ (k - 33) = T at hsplit
    have hTn : T = 2 ^ (k - 33) := hT.symm
    generalize hD : 2 ^ k = D at hsplit hgap hlt
    rw [h33] at hsplit
    rw [h53] at hgap
    have hqZ : 2 ^ excessBits (num * 900000) (num * 900000) ∣ T := by
      rw [hTn]
      apply excessBits_dvd_of_lt
      rw [h53, ← hTn]
      omega
    have hTM : T ∣ 900000 * D - T := by
      refine ⟨900000 * 8589934592 - 1, ?_⟩
      rw [Nat.mul_sub, Nat.mul_one]
      omega
    have hP : roundToDouble (num * 900000) ≤ 900000 * D - T := by
      by_cases hZ : num * 900000 ≤ 900000 * D - T
      · exact roundToDouble_le _ _ (dvd_trans hqZ hTM) hZ
      · have hs : excessBits (num * 900000) (num * 900000) = k - 33 := by
          apply excessBits_of_binade
          · rw [h52, ← hTn]
            omega
          · rw [h53, ← hTn]
            omega
        apply le_of_eq
        apply roundToDouble_near
        · rw [hs, ← hTn]
          exact hTM
        · omega
        · rw [hs, ← hTn]
          omega
    generalize roundToDouble (num * 900000) = P at hP
    have hqY : 2 ^ excessBits (100000 * D + P) (100000 * D + P) ∣ T := by
      rw [hTn]
      apply excessBits_dvd_of_lt
      rw [h53, ← hTn]
      omega
    have hTlo : T ∣ 100000 * D := ⟨100000 * 8589934592, by omega⟩
    have hThi : T ∣ 1000000 * D - T := by
      refine ⟨1000000 * 8589934592 - 1, ?_⟩
      rw [Nat.mul_sub, Nat.mul_one]
      omega
    have hTpos : 0 < T := by
      rw [hTn]
      exact pow_two_pos _
    constructor
    · exact roundToDouble_ge _ _ (dvd_trans hqY hTlo) (by omega)
    · have := roundToDouble_le _ _ (dvd_trans hqY hThi) (by omega)
      omega

theorem Draw.floor_bounds (d : Draw) (h : d.valid) : 100000 ≤ d.floor ∧ d.floor ≤ 999999 := by
  obtain ⟨⟨k, _, hk⟩, hlt, hrep⟩ := h
  rw [hk] at hlt
  obtain ⟨hlo, hhi⟩ := Draw.sum_bounds d.num k hlt hrep
  have hpos : 0 < 2 ^ k := pow_two_pos k
  unfold Draw.floor
  rw [hk]
  constructor
  · rw [Nat.le_div_iff_mul_le hpos]
    exact hlo
  · have : roundToDouble (100000 * 2 ^ k + roundToDouble (d.num * 900000)) / 2 ^ k < 1000000 := by
      rw [Nat.div_lt_iff_lt_mul hpos]
      exact hhi
    omega

theorem Draw.sum_near (num k : Nat) (hlt : num < 2 ^ k) :
    100000 * 2 ^ k + num * 900000 / 2 ^ k * 2 ^ k
      ≤ roundToDouble (100000 * 2 ^ k + roundToDouble (num * 900000)) ∧
    roundToDouble (100000 * 2 ^ k + roundToDouble (num * 900000))
      ≤ 100000 * 2 ^ k + num * 900000 / 2 ^ k * 2 ^ k + 2 ^ k := by
  have h53 : (2 : Nat) ^ 53 = 9007199254740992 := by norm_num
  have hpos : 0 < 2 ^ k := pow_two_pos k
  have hj1 : num * 900000 / 2 ^ k * 2 ^ k ≤ num * 900000 := Nat.div_mul_le_self _ _
  have hj2 : num * 900000 < num * 900000 / 2 ^ k * 2 ^ k + 2 ^ k := by
    have h1 := Nat.div_add_mod (num * 900000) (2 ^ k)
    have h2 := Nat.mod_lt (num * 900000) hpos
    rw [Nat.mul_comm] at h1
    omega
  by_cases hk : k ≤ 33
  · have hD : 2 ^ k ≤ 2 ^ 33 := Nat.pow_le_pow_right (by decide) hk
    have h33 : (2 : Nat) ^ 33 = 8589934592 := by norm_num
    have hP : roundToDouble (num * 900000) = num * 900000 :=
      roundToDouble_exact _ (by omega)
    rw [hP, roundToDouble_exact _ (by omega)]
    omega
  · have hsplit : 2 ^ k = 2 ^ 33 * 2 ^ (k - 33) := by
      rw [← pow_add]
      congr 1
      omega
    have h33 : (2 : Nat) ^ 33 = 8589934592 := by norm_num
    have hTA : 2 ^ (k - 33) ∣ num * 900000 / 2 ^ k * 2 ^ k :=
      Dvd.dvd.mul_left ⟨2 ^ 33, by rw [hsplit, Nat.mul_comm]⟩ _
    generalize num * 900000 / 2 ^ k * 2 ^ k = A at hj1 hj2 hTA
    generalize hT : 2 ^ (k - 33) = T at hsplit hTA
    have hTn : T = 2 ^ (k - 33) := hT.symm
    generalize hD : 2 ^ k = D at hsplit hlt hj2 hpos
    rw [h33] at hsplit
    have hTD : T ∣ D := ⟨8589934592, by omega⟩
    have hqZ : 2 ^ excessBits (num * 900000) (num * 900000) ∣ T := by
      rw [hTn]
      apply excessBits_dvd_of_lt
      rw [h53, ← hTn]
      omega
    have hP1 : A ≤ roundToDouble (num * 900000) :=
      roundToDouble_ge _ _ (dvd_trans hqZ hTA) hj1
    have hP2 : roundToDouble (num * 900000) ≤ A + D :=
      roundToDouble_le _ _ (dvd_trans hqZ (Dvd.dvd.add hTA hTD)) (by omega)
    generalize roundToDouble (num * 900000) = P at hP1 hP2
    have hqY : 2 ^ excessBits (100000 * D + P) (100000 * D + P) ∣ T := by
      rw [hTn]
      apply excessBits_dvd_of_lt
      rw [h53, ← hTn]
      omega
    have hTlo : T ∣ 100000 * D + A := Dvd.dvd.add (Dvd.dvd.mul_left hTD _) hTA
    have hThi : T ∣ 100000 * D + A + D := Dvd.dvd.add hTlo hTD
    exact ⟨roundToDouble_ge _ _ (dvd_trans hqY hTlo) (by omega),
      roundToDouble_le _ _ (dvd_trans hqY hThi) (by omega)⟩

theorem Draw.floor_near (d : Draw) (h : d.valid) :
    100000 + d.num * 900000 / d.den ≤ d.floor ∧
    d.floor ≤ 100000 + d.num * 900000 / d.den + 1 := by
  obtain ⟨⟨k, _, hk⟩, hlt, _⟩ := h
  rw [hk] at hlt
  obtain ⟨hlo, hhi⟩ := Draw.sum_near d.num k hlt
  have hpos : 0 < 2 ^ k := pow_two_pos k
  unfold Draw.floor
  rw [hk]
  constructor
  · rw [Nat.le_div_iff_mul_le hpos, Nat.add_mul]
    exact hlo
  · apply Nat.div_le_of_le_mul
    have hring : 2 ^ k * (100000 + d.num * 900000 / 2 ^ k + 1)
        = 100000 * 2 ^ k + d.num * 900000 / 2 ^ k * 2 ^ k + 2 ^ k := by ring
    rw [hring]
    exact hhi

theorem Draw.code_isCode (d : Draw) (h : d.valid) : IsCode d.code :=
  IsCode_toString _ (Draw.floor_bounds d h).1 (by have := (Draw.floor_bounds d h).2; omega)

theorem generateCode_isCode (store : Store) (draws : List Draw) (k : String)
    (hvalid : ∀ d, d ∈ draws → d.valid) (h : generateCode store draws = some k) : IsCode k := by
  obtain ⟨⟨d, hd, hk⟩, _⟩ := generateCode_some store draws k h
  rw [hk]
  exact Draw.code_isCode d (hvalid d hd)

theorem Store.keys_set_subset (store : Store) (key : String) (v : Session) (k : String)
    (h : k ∈ Store.keys (Store.set store key v)) : k = key ∨ k ∈ Store.keys store := by
  unfold Store.set at h
  cases hown : Store.own store key with
  | none =>
    simp only [hown] at h
    have hperm := (Store.insertNew_perm key v store).map Prod.fst
    have hmem : k ∈ key :: Store.keys store := by
      simpa [Store.keys] using hperm.mem_iff.1 (by simpa [Store.keys] using h)
    exact List.mem_cons.1 hmem
  | some s =>
    simp only [hown] at h
    rw [Store.keys_update] at h
    exact Or.inr h

/-- C14: for a draw `r` that is a double with `0 ≤ r < 1`, the number
`Math.floor(100000 + r * 900000)` that line 30 computes in doubles lies between
100000 and 999999, and it is the floor of the exact value of `100000 + r * 900000`
or one more; the code is the decimal rendering of that number, a string of exactly
six decimal digits whose value is that number. So is every code that
`generateCode` returns on such draws, the code in every `session-created` reply (an
open requester gets the text `\x7b"type":"session-created","code":"k"\x7d` for such a
code `k`), and, once the keys of the store are such strings, every key after one
more event. -/
theorem code_is_six_digits :
    (∀ d : Draw, d.valid →
      d.code = toString d.floor ∧
      100000 ≤ d.floor ∧ d.floor ≤ 999999 ∧
      100000 + d.num * 900000 / d.den ≤ d.floor ∧
      d.floor ≤ 100000 + d.num * 900000 / d.den + 1 ∧
      IsCode d.code ∧
      digitsValue d.code.data = d.floor) ∧
    (∀ (store : Store) (draws : List Draw) (k : String),
      (∀ d, d ∈ draws → d.valid) → generateCode store draws = some k → IsCode k) ∧
    (∀ (isOpen : Conn → Bool) (draws : List Draw) (st st1 : State) (c : Conn) (msg : JVal)
        (out : List Send),
      (∀ d, d ∈ draws → d.valid) → msgType msg = some (.str "create-session") →
      onMessage isOpen draws st c (some msg) = .ok (st1, out) →
        ∃ k, IsCode k ∧
          out = safeSend isOpen (some c)
            (.obj (.cons "type" (.str "session-created") (.cons "code" (.str k) .nil))) ∧
          (isOpen c = true →
            out = [(c, "\x7b\"type\":\"session-created\",\"code\":\"" ++ k ++ "\"\x7d")])) ∧
    (∀ (isOpen : Conn → Bool) (st st1 : State) (ev : Event) (out : List Send),
      ev.validDraws → (∀ k, k ∈ Store.keys st.sessions → IsCode k) →
      step isOpen st ev = .ok (st1, out) →
        ∀ k, k ∈ Store.keys st1.sessions → IsCode k) := by
  refine ⟨?_, ?_, ?_, ?_⟩
  · intro d hd
    obtain ⟨hlo, hhi⟩ := Draw.floor_bounds d hd
    exact ⟨rfl, hlo, hhi, (Draw.floor_near d hd).1, (Draw.floor_near d hd).2,
      Draw.code_isCode d hd, digitsValue_toString_six _ hlo (by omega)⟩
  · intro store draws k hvalid hgen
    exact generateCode_isCode store draws k hvalid hgen
  · intro isOpen draws st st1 c msg out hvalid hty hres
    rw [onMessage_create isOpen draws st c msg hty] at hres
    obtain ⟨k, hgen, _, _, _, hout⟩ := createSession_cases isOpen draws st st1 c out hres
    have hcode := generateCode_isCode st.sessions draws k hvalid hgen
    refine ⟨k, hcode, hout, ?_⟩
    intro h
    rw [hout, safeSend_open isOpen c _ h, sessionCreated_text, quoteJSON_digits k hcode.2.1,
      text_quote_assoc]
    rfl
  · intro isOpen st st1 ev out hvalid hkeys hstep k hk
    cases ev with
    | message ws parsed draws =>
      rcases onMessage_cases isOpen draws st st1 ws parsed out hstep with
        hst | ⟨k0, hgen, _, hsess, _⟩ | ⟨key, session, _, _, _, hsess, _⟩
      · rw [hst] at hk
        exact hkeys k hk
      · rw [hsess] at hk
        rcases Store.keys_set_subset _ _ _ _ hk with h | h
        · rw [h]
          exact generateCode_isCode st.sessions draws k0 hvalid hgen
        · exact hkeys k h
      · rw [hsess, Store.keys_update] at hk
        exact hkeys k hk
    | close ws =>
      simp only [step, Outcome.ok.injEq] at hstep
      have hst : st1 = (cleanupSocket isOpen st ws).1 := by rw [hstep]
      rw [hst, cleanupSocket_eq, cleanupScan_keys] at hk
      exact hkeys k hk
    | error ws =>
      simp only [step, Outcome.ok.injEq] at hstep
      have hst : st1 = (cleanupSocket isOpen st ws).1 := by rw [hstep]
      rw [hst, cleanupSocket_eq, cleanupScan_keys] at hk
      exact hkeys k hk
    | expire i =>
      simp only [step, Outcome.ok.injEq, Prod.mk.injEq] at hstep
      rw [← hstep.1] at hk
      cases hcode : st.timers[i]? with
      | none =>
        simp only [fireTimer, hcode] at hk
        exact hkeys k hk
      | some code =>
        simp only [fireTimer, hcode] at hk
        unfold expiryCallback at hk
        split at hk
        · split at hk
          · exact hkeys k ((Store.keys_erase_sublist _ _).subset hk)
          · exact hkeys k hk
        · exact hkeys k ((Store.keys_erase_sublist _ _).subset hk)
        · exact hkeys k ((Store.keys_erase_sublist _ _).subset hk)

/-- Witness for C14: the draw 1/2 gives the code 550000; the draw
123183457807755 / 2 ^ 52, on which the rounded sum is one above the floor of the
exact value, gives 124617; and the largest double below 1 gives 999999. -/
theorem code_is_six_digits_witness :
    Draw.valid { num := 1, den := 2 } ∧
    IsCode "550000" ∧
    Draw.valid { num := 123183457807755, den := 2 ^ 52 } ∧
    Draw.code { num := 123183457807755, den := 2 ^ 52 } = "124617" ∧
    100000 + 123183457807755 * 900000 / 2 ^ 52 = 124616 ∧
    digitsValue "124617".data = 124617 ∧
    Draw.valid { num := 2 ^ 53 - 1, den := 2 ^ 53 } ∧
    digitsValue (Draw.code { num := 2 ^ 53 - 1, den := 2 ^ 53 }).data = 999999 := by
  have h1 : Draw.valid { num := 1, den := 2 } := ⟨⟨1, by decide, rfl⟩, by decide, by decide⟩
  have h2 : Draw.valid { num := 123183457807755, den := 2 ^ 52 } :=
    ⟨⟨52, by decide, rfl⟩, by decide, by decide⟩
  have h3 : Draw.valid { num := 2 ^ 53 - 1, den := 2 ^ 53 } :=
    ⟨⟨53, by decide, rfl⟩, by decide, by decide⟩
  have e2 : Draw.floor { num := 123183457807755, den := 2 ^ 52 } = 124617 := by decide
  have e3 : Draw.floor { num := 2 ^ 53 - 1, den := 2 ^ 53 } = 999999 := by decide
  have c2 := (code_is_six_digits.1 { num := 123183457807755, den := 2 ^ 52 } h2).2.2.2.2.2.2
  have c3 := (code_is_six_digits.1 { num := 2 ^ 53 - 1, den := 2 ^ 53 } h3).2.2.2.2.2.2
  rw [e3] at c3
  refine ⟨h1, (code_is_six_digits.1 { num := 1, den := 2 } h1).2.2.2.2.2.1, h2, by decide,
    by decide, ?_, h3, c3⟩
  rw [e2] at c2
  exact c2

/-! ## C15: the role named in `peer-disconnected` -/

theorem cleanupSocket_unique_send (isOpen : Conn → Bool) (st : State) (conn : Conn)
    (c : String) (r : Role) (s : Session) (hnd : (Store.keys st.sessions).Nodup)
    (hown : Store.own st.sessions c = some s) (hslot : s.slot r = some conn)
    (huniq : ∀ c1 r1, Occupies st.sessions conn c1 r1 → c1 = c ∧ r1 = r) :
    (cleanupSocket isOpen st conn).2 = safeSend isOpen (s.peerOf r) (peerDisconnected r) := by
  rcases cleanupScan_spec isOpen conn st.sessions hnd with
    ⟨hall, _⟩ | ⟨code, s1, role, hown1, hrole, heq⟩
  · exact absurd (hall c s hown) (slot_some_roleOf conn s r hslot)
  · obtain ⟨hc, hr⟩ := huniq code role ⟨s1, hown1, roleOf_some_slot conn s1 role hrole⟩
    subst hc
    subst hr
    rw [hown] at hown1
    have hs : s = s1 := Option.some.inj hown1
    subst hs
    rw [cleanupSocket_eq, heq]
    simp [Session.clear_peerOf]

/-- C15 as stated fails on the code: when the creator 0 of the paired session
100000 disconnects, the frame the joiner 1 gets is not `peer-disconnected` with
role `"primary"`; its role is `"laptop"`. -/
theorem role_is_not_primary :
    (cleanupSocket allOpen pairedState 0).2
      ≠ [(1, "\x7b\"type\":\"peer-disconnected\",\"role\":\"primary\"\x7d")] ∧
    (cleanupSocket allOpen pairedState 0).2
      = [(1, "\x7b\"type\":\"peer-disconnected\",\"role\":\"laptop\"\x7d")] := by
  refine ⟨by decide, by decide⟩

/-- C15, amended: in a well-formed store where `conn` holds the slot `r` of session
`c` and no other slot, and the other slot holds an open `p`, the frame that
`cleanupSocket(conn)` sends to `p` is `peer-disconnected` whose role is the string
`"laptop"` when `conn` was the creator (laptop slot) and `"mobile"` when it was
the joiner (mobile slot). -/
theorem peerDisconnected_names_slot (isOpen : Conn → Bool) (st : State) (conn p : Conn)
    (c : String) (r : Role) (s : Session) (hwf : Store.WF st.sessions)
    (hown : Store.own st.sessions c = some s) (hslot : s.slot r = some conn)
    (huniq : ∀ c1 r1, Occupies st.sessions conn c1 r1 → c1 = c ∧ r1 = r)
    (hpeer : s.peerOf r = some p) (hopen : isOpen p = true) :
    (r = .laptop →
      (cleanupSocket isOpen st conn).2
        = [(p, "\x7b\"type\":\"peer-disconnected\",\"role\":\"laptop\"\x7d")]) ∧
    (r = .mobile →
      (cleanupSocket isOpen st conn).2
        = [(p, "\x7b\"type\":\"peer-disconnected\",\"role\":\"mobile\"\x7d")]) := by
  have hsend := cleanupSocket_unique_send isOpen st conn c r s hwf.1 hown hslot huniq
  rw [hpeer, safeSend_open isOpen p _ hopen] at hsend
  constructor
  · intro hr
    rw [hsend, hr]
    rfl
  · intro hr
    rw [hsend, hr]
    rfl

/-- Witness for C15: in the paired session 100000, when the laptop 0 disconnects
the mobile 1 gets role `"laptop"`. -/
theorem peerDisconnected_names_slot_witness :
    Store.WF pairedState.sessions ∧
    (cleanupSocket allOpen pairedState 0).2
      = [(1, "\x7b\"type\":\"peer-disconnected\",\"role\":\"laptop\"\x7d")] := by
  have hwf : Store.WF pairedState.sessions := Store.WF_single 100000 _
  refine ⟨hwf, (peerDisconnected_names_slot allOpen pairedState 0 1 "100000" .laptop
    { laptop := some 0, mobile := some 1 } hwf rfl rfl ?_ rfl rfl).1 rfl⟩
  rintro c1 r1 ⟨s, hs, hslot⟩
  by_cases hc : "100000" = c1
  · have hs1 : s = { laptop := some 0, mobile := some 1 } := by
      simpa [pairedState, Store.own, hc] using hs.symm
    subst hs1
    cases r1 with
    | laptop => exact ⟨hc.symm, rfl⟩
    | mobile => simp [Session.slot] at hslot
  · simp [pairedState, Store.own, hc] at hs
